import Mathlib

/-!
ncpgen: document to overlay-table transcoding.

A shallow embedding of `source/main.cpp`: the overlay-table record `OvtEntry`,
the forward transform `generateOvt` (document to `arm9ovt.bin` / `arm7ovt.bin`),
the inverse transform `restoreOvt`, the header block of `main`, and the symlink
farm builder `generateOvSyms`.

Conventions of the embedding.

* Text is `String`; the C and C++ library routines the program calls
  (`std::stoi`, `std::to_string`, `std::string::find`, pugixml's `as_int`) are
  modelled after their documented behaviour on a platform with a 32-bit `int`.
* An uncaught C++ exception and a `return false` are both a value of `Failure`
  inside `Except`; a function that returns `true` yields `Except.ok` with what
  it wrote.
* Machine integers are `Nat` or `Int` with an explicit reduction modulo `2 ^ 32`
  (or `2 ^ 24`, for the bit-field) at every store.
* A file is a list of bytes; a record is laid out in 32 bytes, little-endian,
  with the bit-fields `compressed : 24` and `flag : 8` sharing the last word
  (low 24 bits and high 8 bits), as GCC, Clang and MSVC do on x86 and ARM.
* `std::sort` is any function that returns a sorted permutation (`StdSort`):
  the C++ standard promises nothing about the order of equal keys.
-/

namespace Ncpgen

/-! ## Failures -/

/-- The ways a function of the program can fail: the two exceptions of
`std::stoi` and `std::string::substr`, the exception of `fs::file_size`, and the
`return false` paths (after printing a message). -/
inductive Failure where
  | invalid_argument
  | out_of_range
  | filesystem_error
  | returned_false
  deriving DecidableEq, Repr

/-! ## The C / C++ library routines used by the program -/

/-- The C `isspace` in the "C" locale: space, `\t`, `\n`, `\v`, `\f`, `\r`. -/
def isSpace (c : Char) : Bool :=
  c.toNat == 32 || (9 ≤ c.toNat && c.toNat ≤ 13)

/-- The decimal digits `0` to `9`. -/
def isDigit (c : Char) : Bool :=
  48 ≤ c.toNat && c.toNat ≤ 57

/-- Value of a decimal digit character. -/
def digitVal (c : Char) : Nat :=
  c.toNat - 48

/-- Value of the leading run of decimal digits of a text, continuing from the
accumulator `acc`; scanning stops at the first character that is not a digit. -/
def scanDigits (acc : Nat) : List Char → Nat
  | [] => acc
  | c :: cs => if isDigit c then scanDigits (acc * 10 + digitVal c) cs else acc

/-- The call `std::stoi(str)` (base 10, no position argument): skips leading white space,
takes an optional sign, then the longest run of digits, and ignores whatever
follows. Throws `std::invalid_argument` when there is no digit and
`std::out_of_range` when the value does not fit a 32-bit `int`. -/
def stoi (str : String) : Except Failure Int :=
  let t := str.data.dropWhile isSpace
  let negative := t.head? == some '-'
  let u := if t.head? == some '-' || t.head? == some '+' then t.tail else t
  match u with
  | [] => .error .invalid_argument
  | c :: _ =>
    if isDigit c then
      let v : Int := if negative then - (scanDigits 0 u : Int) else (scanDigits 0 u : Int)
      if v < -2147483648 ∨ 2147483647 < v then .error .out_of_range else .ok v
    else .error .invalid_argument

/-- Conversion of an `int` to `u32` on assignment: reduction modulo `2 ^ 32`. -/
def toU32 (v : Int) : Nat :=
  (v % 4294967296).toNat

/-- Conversion of an `int` to the 24-bit unsigned bit-field `compressed`. -/
def toU24 (v : Int) : Nat :=
  (v % 16777216).toNat

/-- The call `std::to_string` on an unsigned value: its decimal numeral. -/
def to_string (value : Nat) : String :=
  String.mk (Nat.toDigits 10 value)

/-- The call `std::to_string` on an `int`: a minus sign before the numeral of a negative
value. -/
def to_string_int (value : Int) : String :=
  if value < 0 then String.mk ('-' :: Nat.toDigits 10 value.natAbs) else to_string value.toNat

/-- Position search of `std::string::find`, over the characters left to scan. -/
def findFrom (pat : List Char) : List Char → Nat → Option Nat
  | [], pos => if pat.isEmpty then some pos else none
  | c :: cs, pos => if pat.isPrefixOf (c :: cs) then some pos else findFrom pat cs (pos + 1)

/-- The call `str.find(pat)`: the first position at which `pat` occurs in `str`, `none`
standing for `std::string::npos`. -/
def find (str pat : String) : Option Nat :=
  findFrom pat.data str.data 0

/-- The call `str.starts_with(pat)`. -/
def starts_with (str pat : String) : Bool :=
  pat.data.isPrefixOf str.data

/-- The call `str.substr(pos)`: throws `std::out_of_range` when `pos` exceeds the length. -/
def substr (str : String) (pos : Nat) : Except Failure String :=
  if str.data.length < pos then .error .out_of_range else .ok (String.mk (str.data.drop pos))

/-! ## pugixml: integer conversion of an attribute value -/

/-- The characters pugixml classifies as `ct_space`: `\r`, `\n`, space, tab. -/
def pugiIsSpace (c : Char) : Bool :=
  c.toNat == 13 || c.toNat == 10 || c.toNat == 32 || c.toNat == 9

/-- Value of a hexadecimal digit of pugixml's scanner (`0-9`, `a-f`, `A-F`). -/
def hexVal (c : Char) : Option Nat :=
  if isDigit c then some (c.toNat - 48)
  else if 97 ≤ (c.toNat ||| 32) ∧ (c.toNat ||| 32) < 103 then some ((c.toNat ||| 32) - 97 + 10)
  else none

/-- Accumulation of a run of decimal digits in an `unsigned int` (wrapping). -/
def scanDec32 (acc : Nat) : List Char → Nat
  | [] => acc
  | c :: cs => if isDigit c then scanDec32 ((acc * 10 + digitVal c) % 4294967296) cs else acc

/-- Accumulation of a run of hexadecimal digits in an `unsigned int` (wrapping). -/
def scanHex32 (acc : Nat) : List Char → Nat
  | [] => acc
  | c :: cs =>
    match hexVal c with
    | some d => scanHex32 ((acc * 16 + d) % 4294967296) cs
    | none => acc

/-- Length of the run of characters accepted by `p` at the front of a text. -/
def runLength (p : Char → Bool) (s : List Char) : Nat :=
  (s.takeWhile p).length

/-- The hexadecimal branch of `string_to_integer`, entered after the `0x`
prefix: leading zeros are skipped, the digits are accumulated, and more than
eight digits are an overflow. Returns the result and the overflow flag. -/
def scanHexNumber (s : List Char) : Nat × Bool :=
  let start := s.dropWhile (fun c => c == '0')
  let result := scanHex32 0 start
  let digits := runLength (fun c => (hexVal c).isSome) start
  (result, decide (8 < digits))

/-- The decimal branch of `string_to_integer`: leading zeros are skipped, the
digits are accumulated, and overflow is detected from the number of digits
(`max_digits10 = 10`, `max_lead = '4'`, `high_bit = 31`). Returns the result
and the overflow flag. -/
def scanDecNumber (s : List Char) : Nat × Bool :=
  let start := s.dropWhile (fun c => c == '0')
  let result := scanDec32 0 start
  let digits := runLength isDigit start
  let lead := (start.head?.map Char.toNat).getD 0
  (result, decide (10 ≤ digits) &&
    !(digits == 10 && (decide (lead < 52) || (lead == 52 && decide (result / 2147483648 ≠ 0)))))

/-- The function `string_to_integer<unsigned int>(value, minv, maxv)` of
pugixml: white space, sign, then a hexadecimal (`0x`) or decimal number; on
overflow the result is clamped to `minv` / `maxv`. The result is the
`unsigned int` bit pattern. -/
def string_to_integer (value : List Char) (minv maxv : Nat) : Nat :=
  let s0 := value.dropWhile pugiIsSpace
  let negative := s0.head? == some '-'
  let s1 := if s0.head? == some '+' || s0.head? == some '-' then s0.tail else s0
  let isHex := s1.head? == some '0' && (s1.tail.head?.map (fun c => c.toNat ||| 32)) == some 120
  let scanned := if isHex then scanHexNumber (s1.drop 2) else scanDecNumber s1
  let result := scanned.1
  let overflow := scanned.2
  if negative then
    if overflow || decide ((4294967296 - minv) % 4294967296 < result) then minv
    else (4294967296 - result) % 4294967296
  else
    if overflow || decide (maxv < result) then maxv else result

/-- Reinterpretation of an `unsigned int` bit pattern as `int`. -/
def toInt32 (u : Nat) : Int :=
  if u < 2147483648 then (u : Int) else (u : Int) - 4294967296

/-- The function `get_value_int` of pugixml: `string_to_integer` clamped to `INT_MIN`,
`INT_MAX`. -/
def get_value_int (value : String) : Int :=
  toInt32 (string_to_integer value.data 2147483648 2147483647)

/-- The call `xml_attribute::as_string()`: the value, or `""` for the null attribute. -/
def as_string (attr : Option String) : String :=
  attr.getD ""

/-- The call `xml_attribute::as_int()`: the converted value, or `0` for the null
attribute. -/
def as_int (attr : Option String) : Int :=
  match attr with
  | none => 0
  | some value => get_value_int value

/-! ## The document model (pugixml nodes) -/

/-- A document node: an element with a name, attributes and children, or a
character-data node. -/
inductive XmlNode where
  | element (name : String) (attributes : List (String × String)) (children : List XmlNode)
  | pcdata (value : String)

namespace XmlNode

/-- The call `xml_node::name()`: empty for a node that is not an element. -/
def name : XmlNode → String
  | element n _ _ => n
  | pcdata _ => ""

/-- The attribute list of a node. -/
def attributes : XmlNode → List (String × String)
  | element _ as _ => as
  | pcdata _ => []

/-- The child list of a node, in document order. -/
def children : XmlNode → List XmlNode
  | element _ _ cs => cs
  | pcdata _ => []

/-- The call `xml_node::attribute(name)`: the value of the first attribute of
that name, `none` standing for the null attribute. -/
def attr (node : XmlNode) (attrName : String) : Option String :=
  (node.attributes.find? (fun a => a.1 == attrName)).map (fun a => a.2)

/-- Whether a node is an element of the given name. -/
def isNamed (childName : String) : XmlNode → Bool
  | element n _ _ => n == childName
  | pcdata _ => false

/-- The call `xml_node::child(name)`: the first child element of that name, `none`
standing for the null node. -/
def child (node : XmlNode) (childName : String) : Option XmlNode :=
  node.children.find? (isNamed childName)

/-- The call `xml_node::child_value()`: the text of the first character-data child, or
`""`. -/
def firstText : List XmlNode → String
  | [] => ""
  | pcdata v :: _ => v
  | element _ _ _ :: rest => firstText rest

/-- The call `xml_node::child_value(name)`: the text of the first child element of that
name, or `""` when there is none. -/
def child_value (node : XmlNode) (childName : String) : String :=
  match node.child childName with
  | none => ""
  | some c => firstText c.children

end XmlNode

/-- Children of a node handle that may be null. -/
def childrenOf : Option XmlNode → List XmlNode
  | none => []
  | some n => n.children

/-! ## The overlay-table record -/

/-- The struct `OvtEntry`; every field holds the value of its unsigned
bit pattern. -/
structure OvtEntry where
  overlayID : Nat
  ramAddress : Nat
  ramSize : Nat
  bssSize : Nat
  sinitStart : Nat
  sinitEnd : Nat
  fileID : Nat
  compressed : Nat
  flag : Nat
  deriving DecidableEq, Repr

/-- The values a field of `OvtEntry` can hold: 32 bits, except 24 bits for
`compressed` and 8 bits for `flag`. -/
def OvtEntry.WF (e : OvtEntry) : Prop :=
  e.overlayID < 4294967296 ∧ e.ramAddress < 4294967296 ∧ e.ramSize < 4294967296 ∧
  e.bssSize < 4294967296 ∧ e.sinitStart < 4294967296 ∧ e.sinitEnd < 4294967296 ∧
  e.fileID < 4294967296 ∧ e.compressed < 16777216 ∧ e.flag < 256

instance (e : OvtEntry) : Decidable e.WF := by
  unfold OvtEntry.WF
  infer_instance

/-- The macro `OVERLAY_FLAG_COMP`. -/
def OVERLAY_FLAG_COMP : Nat := 1

/-- The macro `OVERLAY_FLAG_AUTH`. -/
def OVERLAY_FLAG_AUTH : Nat := 2

/-- A value-initialised `OvtEntry`, as `std::vector<OvtEntry>(n)` creates it. -/
def OvtEntry.zero : OvtEntry :=
  ⟨0, 0, 0, 0, 0, 0, 0, 0, 0⟩

/-- The constant `sizeof(OvtEntry)`. -/
def sizeofOvtEntry : Nat := 32

/-! ## Files as byte lists -/

/-- A byte. -/
abbrev Byte := Fin 256

/-- The byte holding `n` modulo 256. -/
def byteOf (n : Nat) : Byte :=
  ⟨n % 256, Nat.mod_lt n (by decide)⟩

/-- The four bytes of a 32-bit word, least significant first. -/
def u32Bytes (n : Nat) : List Byte :=
  [byteOf n, byteOf (n / 256), byteOf (n / 65536), byteOf (n / 16777216)]

/-- The 32-bit word stored at offset `off` of a byte list. -/
def u32At (bs : List Byte) (off : Nat) : Nat :=
  (bs.getD off 0).val + 256 * (bs.getD (off + 1) 0).val + 65536 * (bs.getD (off + 2) 0).val +
    16777216 * (bs.getD (off + 3) 0).val

/-- The 32 bytes of a record in memory. -/
def OvtEntry.toBytes (e : OvtEntry) : List Byte :=
  u32Bytes e.overlayID ++ u32Bytes e.ramAddress ++ u32Bytes e.ramSize ++ u32Bytes e.bssSize ++
    u32Bytes e.sinitStart ++ u32Bytes e.sinitEnd ++ u32Bytes e.fileID ++
    u32Bytes (e.compressed % 16777216 + 16777216 * (e.flag % 256))

/-- The record held by 32 bytes of memory. -/
def OvtEntry.ofBytes (bs : List Byte) : OvtEntry where
  overlayID := u32At bs 0
  ramAddress := u32At bs 4
  ramSize := u32At bs 8
  bssSize := u32At bs 12
  sinitStart := u32At bs 16
  sinitEnd := u32At bs 20
  fileID := u32At bs 24
  compressed := u32At bs 28 % 16777216
  flag := u32At bs 28 / 16777216

/-- The bytes of a record array: `ovtFile.write(ovtEntries.data(), size * 32)`. -/
def writeEntries (ovtEntries : List OvtEntry) : List Byte :=
  (ovtEntries.map OvtEntry.toBytes).flatten

/-- The first `count` records of a byte list:
`ovtFile.read(ovtEntries.data(), count * 32)`. -/
def readRecords : Nat → List Byte → List OvtEntry
  | 0, _ => []
  | count + 1, bs => OvtEntry.ofBytes (bs.take 32) :: readRecords count (bs.drop 32)

/-! ## Sorting -/

/-- The comparator passed to `std::sort`: `a.overlayID < b.overlayID`. -/
def ovtLess (a b : OvtEntry) : Prop :=
  a.overlayID < b.overlayID

instance (a b : OvtEntry) : Decidable (ovtLess a b) := by
  unfold ovtLess
  infer_instance

/-- An implementation of `std::sort` with the comparator `ovtLess`: what the
C++ standard promises of it, a permutation of the input in which no element
compares less than an earlier one. The order of records with equal ids is left
to the implementation. -/
structure StdSort where
  sort : List OvtEntry → List OvtEntry
  perm : ∀ l, List.Perm (sort l) l
  sorted : ∀ l, List.Pairwise (fun a b => ¬ ovtLess b a) (sort l)

/-- One implementation of `std::sort`: insertion sort, which is what libstdc++
and libc++ run on arrays of up to 16 elements. -/
def insertionStdSort : StdSort where
  sort := List.insertionSort (fun a b => a.overlayID ≤ b.overlayID)
  perm := List.perm_insertionSort _
  sorted := by
    intro l
    haveI : IsTotal OvtEntry (fun a b => a.overlayID ≤ b.overlayID) :=
      ⟨fun a b => Nat.le_total a.overlayID b.overlayID⟩
    haveI : IsTrans OvtEntry (fun a b => a.overlayID ≤ b.overlayID) :=
      ⟨fun _ _ _ hab hbc => Nat.le_trans hab hbc⟩
    have h := List.sorted_insertionSort (fun a b : OvtEntry => a.overlayID ≤ b.overlayID) l
    exact List.Pairwise.imp (fun hab => Nat.not_lt.mpr hab) h

/-! ## The forward transform `generateOvt` -/

/-- The function `nodeCount`: the number of child elements of a given name,
which is the size `generateOvt` gives the vector `ovtEntries`. -/
def nodeCount (node : Option XmlNode) (childName : String) : Nat :=
  ((childrenOf node).filter (XmlNode.isNamed childName)).length

/-- Name of the container node of a CPU target. -/
def ovtNodeName (isArm9 : Bool) : String :=
  if isArm9 then "ARM9Ovt" else "ARM7Ovt"

/-- The flag byte computed from the `Flag` attribute (lines 49 to 51). -/
def flagOfString (flag : String) : Nat :=
  (if (find flag "Compressed").isSome then OVERLAY_FLAG_COMP else 0) |||
    (if (find flag "AuthenticationCode").isSome then OVERLAY_FLAG_AUTH else 0)

/-- Body of the loop of `generateOvt` (lines 46 to 58): the record filled from
one `RomOVT` node. The record starts value-initialised, so `fileID` stays 0. -/
def readEntry (entryNode : XmlNode) : Except Failure OvtEntry := do
  let flag := as_string (entryNode.attr "Flag")
  let overlayID := toU32 (as_int (entryNode.attr "Id"))
  let flagByte := flagOfString flag % 256
  let ramAddress ← stoi (entryNode.child_value "RamAddress")
  let ramSize ← stoi (entryNode.child_value "RamSize")
  let bssSize ← stoi (entryNode.child_value "BssSize")
  let sinitStart ← stoi (entryNode.child_value "SinitInit")
  let sinitEnd ← stoi (entryNode.child_value "SinitInitEnd")
  let compressed ← stoi (entryNode.child_value "Compressed")
  pure { OvtEntry.zero with
    overlayID := overlayID
    flag := flagByte
    ramAddress := toU32 ramAddress
    ramSize := toU32 ramSize
    bssSize := toU32 bssSize
    sinitStart := toU32 sinitStart
    sinitEnd := toU32 sinitEnd
    compressed := toU24 compressed }

/-- The loop of `generateOvt` (lines 41 to 60) over the children of the
container, in document order: children not named `RomOVT` are skipped, and the
first exception ends the run. -/
def readEntries : List XmlNode → Except Failure (List OvtEntry)
  | [] => pure []
  | entryNode :: rest =>
    if entryNode.name ≠ "RomOVT" then readEntries rest
    else do
      let ovtEntry ← readEntry entryNode
      let ovtEntries ← readEntries rest
      pure (ovtEntry :: ovtEntries)

/-- The function `generateOvt`: the bytes written to the overlay-table file.
`opens` tells whether the output file could be opened. -/
def generateOvt (S : StdSort) (romInfoNode : XmlNode) (isArm9 : Bool) (opens : Bool) :
    Except Failure (List Byte) := do
  let armOvtNode := romInfoNode.child (ovtNodeName isArm9)
  let ovtEntries ← readEntries (childrenOf armOvtNode)
  let sorted := S.sort ovtEntries
  if !opens then .error .returned_false
  else .ok (writeEntries sorted)

/-! ## The inverse transform `restoreOvt` -/

/-- The `Flag` attribute text chosen from the flag byte (lines 132 to 148). -/
def flagValue (flag : Nat) : String :=
  if flag &&& OVERLAY_FLAG_COMP ≠ 0 ∧ flag &&& OVERLAY_FLAG_AUTH ≠ 0 then
    "Compressed AuthenticationCode"
  else if flag &&& OVERLAY_FLAG_COMP ≠ 0 then "Compressed"
  else if flag &&& OVERLAY_FLAG_AUTH ≠ 0 then "AuthenticationCode"
  else ""

/-- The lambda `addField`: a child element holding the decimal text of a value. -/
def addField (fieldName : String) (value : Nat) : XmlNode :=
  .element fieldName [] [.pcdata (to_string value)]

/-- Body of the loop of `restoreOvt` (lines 129 to 159): the `RomOVT` node
appended for one record. -/
def entryNodeOf (ovtEntry : OvtEntry) : XmlNode :=
  .element "RomOVT"
    [("Id", to_string ovtEntry.overlayID), ("Flag", flagValue ovtEntry.flag)]
    [addField "RamAddress" ovtEntry.ramAddress,
     addField "RamSize" ovtEntry.ramSize,
     addField "BssSize" ovtEntry.bssSize,
     addField "SinitInit" ovtEntry.sinitStart,
     addField "SinitInitEnd" ovtEntry.sinitEnd,
     addField "Compressed" ovtEntry.compressed]

/-- Replacement of the children of the first child element of a given name:
what `remove_children` followed by the `append_child` calls do to the node
handle `armOvtNode`. Nothing changes when there is no such child (null handle). -/
def setChildrenOfFirst (childName : String) (newChildren : List XmlNode) :
    List XmlNode → List XmlNode
  | [] => []
  | .element n as cs :: rest =>
    if n == childName then .element n as newChildren :: rest
    else .element n as cs :: setChildrenOfFirst childName newChildren rest
  | .pcdata v :: rest => .pcdata v :: setChildrenOfFirst childName newChildren rest

/-- The function `restoreOvt`: the node `romInfoNode` after the call. `ovtFile`
is the content of the overlay-table file (`none` when it does not exist, which
makes `fs::file_size` throw) and `opens` tells whether it could be opened. -/
def restoreOvt (romInfoNode : XmlNode) (isArm9 : Bool) (ovtFile : Option (List Byte))
    (opens : Bool) : Except Failure XmlNode :=
  match ovtFile with
  | none => .error .filesystem_error
  | some bytes =>
    let ovtFileSz := bytes.length
    let count := ovtFileSz / sizeofOvtEntry
    if !opens then .error .returned_false
    else
      let ovtEntries := readRecords count bytes
      match romInfoNode with
      | .element n as cs =>
        .ok (.element n as (setChildrenOfFirst (ovtNodeName isArm9) (ovtEntries.map entryNodeOf) cs))
      | .pcdata v => .ok (.pcdata v)

/-- The overlay descriptions of a target: the children of its container node. -/
def ovtChildren (romInfoNode : XmlNode) (isArm9 : Bool) : List XmlNode :=
  childrenOf (romInfoNode.child (ovtNodeName isArm9))

/-! ## The header block of `main` -/

/-- Modelled from the spec: the struct `NDSHeader` of `ndsheader.hpp`, which is
not among the sources; the six unsigned 32-bit fields that `main` assigns, in
the order the spec lists them. -/
structure NDSHeader where
  arm9EntryAddress : Nat
  arm9RamAddress : Nat
  arm7EntryAddress : Nat
  arm7RamAddress : Nat
  arm9AutoLoadListHookOffset : Nat
  arm7AutoLoadListHookOffset : Nat
  deriving DecidableEq, Repr

/-- The call `headerNode.child_value(name)` on a handle that may be null. -/
def childValueOf (node : Option XmlNode) (childName : String) : String :=
  match node with
  | none => ""
  | some n => n.child_value childName

/-- Lines 207 to 214 of `main`: the header record filled from the `Header`
node of the document. -/
def readHeader (romInfoNode : XmlNode) : Except Failure NDSHeader := do
  let headerNode := romInfoNode.child "Header"
  let a ← stoi (childValueOf headerNode "MainEntryAddress")
  let b ← stoi (childValueOf headerNode "MainRamAddress")
  let c ← stoi (childValueOf headerNode "SubEntryAddress")
  let d ← stoi (childValueOf headerNode "SubRamAddress")
  let e ← stoi (childValueOf headerNode "MainAutoloadDone")
  let f ← stoi (childValueOf headerNode "SubAutoloadDone")
  pure ⟨toU32 a, toU32 b, toU32 c, toU32 d, toU32 e, toU32 f⟩

/-! ## The symlink farm builder `generateOvSyms` -/

/-- An entry of the overlay directory. -/
structure DirEntry where
  fileName : String
  is_regular_file : Bool
  deriving DecidableEq, Repr

/-- A symbolic link created by `generateOvSyms`: the directory it is placed in
(`overlay9` when `inOv9dir`, else `overlay7`), its name, and the file of the
overlay directory it points to. -/
structure Symlink where
  inOv9dir : Bool
  linkName : String
  srcName : String
  deriving DecidableEq, Repr

/-- The function `generateOvSyms`: the links created, in directory order.
`linkOk` tells whether `fs::create_symlink` succeeds for a link. -/
def generateOvSyms (linkOk : Symlink → Bool) : List DirEntry → Except Failure (List Symlink)
  | [] => pure []
  | dirEntry :: rest =>
    if !dirEntry.is_regular_file then generateOvSyms linkOk rest
    else
      let fileName := dirEntry.fileName
      let ovTarget : Nat :=
        if starts_with fileName "main_" then 1 else (if starts_with fileName "sub_" then 2 else 0)
      if ovTarget ≠ 0 then do
        let tail ← substr fileName 5
        let fileId ← stoi tail
        let dst : Symlink :=
          ⟨ovTarget == 1,
            (if ovTarget == 1 then "overlay9_" else "overlay7_") ++ to_string_int fileId ++ ".bin",
            fileName⟩
        if !linkOk dst then .error .returned_false
        else do
          let links ← generateOvSyms linkOk rest
          pure (dst :: links)
      else generateOvSyms linkOk rest

/-! ## Overlay descriptions (the document side of the data model) -/

/-- An overlay description of the document model: an id, the flag set over
`Compressed` and `AuthenticationCode`, and six numeric fields. -/
structure OverlayDescription where
  id : Nat
  compressedFlag : Bool
  authFlag : Bool
  ramAddress : Nat
  ramSize : Nat
  bssSize : Nat
  staticInitStart : Nat
  staticInitEnd : Nat
  compressedSize : Nat
  deriving DecidableEq, Repr

/-- The canonical `Flag` string of a flag set. -/
def canonicalFlag (compressedFlag authFlag : Bool) : String :=
  match compressedFlag, authFlag with
  | true, true => "Compressed AuthenticationCode"
  | true, false => "Compressed"
  | false, true => "AuthenticationCode"
  | false, false => ""

/-- The flag byte of a flag set: `Compressed` at bit 0, `AuthenticationCode` at
bit 1. -/
def flagByte (compressedFlag authFlag : Bool) : Nat :=
  (if compressedFlag then 1 else 0) + (if authFlag then 2 else 0)

/-- A `RomOVT` node holds a description: the id and the six numeric fields as
decimal text, the flag set as its canonical `Flag` string. -/
def Describes (node : XmlNode) (d : OverlayDescription) : Prop :=
  node.name = "RomOVT" ∧
  node.attr "Id" = some (to_string d.id) ∧
  as_string (node.attr "Flag") = canonicalFlag d.compressedFlag d.authFlag ∧
  node.child_value "RamAddress" = to_string d.ramAddress ∧
  node.child_value "RamSize" = to_string d.ramSize ∧
  node.child_value "BssSize" = to_string d.bssSize ∧
  node.child_value "SinitInit" = to_string d.staticInitStart ∧
  node.child_value "SinitInitEnd" = to_string d.staticInitEnd ∧
  node.child_value "Compressed" = to_string d.compressedSize

instance (node : XmlNode) (d : OverlayDescription) : Decidable (Describes node d) := by
  unfold Describes
  infer_instance

/-- Every field of a description is an unsigned 32-bit value. -/
def OverlayDescription.IsU32 (d : OverlayDescription) : Prop :=
  d.id < 4294967296 ∧ d.ramAddress < 4294967296 ∧ d.ramSize < 4294967296 ∧
  d.bssSize < 4294967296 ∧ d.staticInitStart < 4294967296 ∧ d.staticInitEnd < 4294967296 ∧
  d.compressedSize < 4294967296

instance (d : OverlayDescription) : Decidable d.IsU32 := by
  unfold OverlayDescription.IsU32
  infer_instance

/-- The six numeric fields of a description fit an `int`, which is what
`std::stoi` accepts. -/
def OverlayDescription.FieldsFitInt (d : OverlayDescription) : Prop :=
  d.ramAddress < 2147483648 ∧ d.ramSize < 2147483648 ∧ d.bssSize < 2147483648 ∧
  d.staticInitStart < 2147483648 ∧ d.staticInitEnd < 2147483648 ∧ d.compressedSize < 2147483648

instance (d : OverlayDescription) : Decidable d.FieldsFitInt := by
  unfold OverlayDescription.FieldsFitInt
  infer_instance

/-- The domain on which a description survives the round trip: the id and
five fields fit an `int`, the compressed size fits the 24-bit field. -/
def OverlayDescription.InRange (d : OverlayDescription) : Prop :=
  d.id < 2147483648 ∧ d.ramAddress < 2147483648 ∧ d.ramSize < 2147483648 ∧
  d.bssSize < 2147483648 ∧ d.staticInitStart < 2147483648 ∧ d.staticInitEnd < 2147483648 ∧
  d.compressedSize < 16777216

instance (d : OverlayDescription) : Decidable d.InRange := by
  unfold OverlayDescription.InRange
  infer_instance

/-- The record `generateOvt` stores for a description whose id and fields fit
an `int`: the compressed size is cut to 24 bits, `fileID` is 0. -/
def recordOf (d : OverlayDescription) : OvtEntry where
  overlayID := d.id
  ramAddress := d.ramAddress
  ramSize := d.ramSize
  bssSize := d.bssSize
  sinitStart := d.staticInitStart
  sinitEnd := d.staticInitEnd
  fileID := 0
  compressed := d.compressedSize % 16777216
  flag := flagByte d.compressedFlag d.authFlag

/-- The names of the six numeric child elements of a `RomOVT` node. -/
def numericFields : List String :=
  ["RamAddress", "RamSize", "BssSize", "SinitInit", "SinitInitEnd", "Compressed"]

/-- The overlay descriptions of a document in ascending order of id. -/
def sortById (ds : List OverlayDescription) : List OverlayDescription :=
  ds.insertionSort (fun a b => a.id ≤ b.id)

/-! ## Example documents -/

/-- A `RomOVT` node with the given attribute and field texts. -/
def romOvtNode (id flag ramAddress ramSize bssSize sinitInit sinitInitEnd compressed : String) :
    XmlNode :=
  .element "RomOVT" [("Id", id), ("Flag", flag)]
    [.element "RamAddress" [] [.pcdata ramAddress],
     .element "RamSize" [] [.pcdata ramSize],
     .element "BssSize" [] [.pcdata bssSize],
     .element "SinitInit" [] [.pcdata sinitInit],
     .element "SinitInitEnd" [] [.pcdata sinitInitEnd],
     .element "Compressed" [] [.pcdata compressed]]

/-- A `RomInfo` node whose ARM9 container holds the given nodes and whose ARM7
container is empty. -/
def romInfoOf (arm9 : List XmlNode) : XmlNode :=
  .element "RomInfo" []
    [.element "Header" [] [], .element "ARM9Ovt" [] arm9, .element "ARM7Ovt" [] []]

/-- A description whose compressed size, `2 ^ 24`, is an unsigned 32-bit value
that does not fit the 24-bit field of the record. -/
def wideDescription : OverlayDescription :=
  ⟨0, false, false, 0, 0, 0, 0, 0, 16777216⟩

/-- The node holding `wideDescription`. -/
def wideNode : XmlNode :=
  romOvtNode "0" "" "0" "0" "0" "0" "0" "16777216"

/-- A small description inside the domain of the round trip. -/
def smallDescription : OverlayDescription :=
  ⟨3, true, false, 33554432, 4096, 256, 33554432, 33554436, 1024⟩

/-- The node holding `smallDescription`. -/
def smallNode : XmlNode :=
  romOvtNode "3" "Compressed" "33554432" "4096" "256" "33554432" "33554436" "1024"

/-- Three overlays in the document order 7, 2, 2: two of them share an id. -/
def duplicateIdNodes : List XmlNode :=
  [romOvtNode "7" "" "1" "1" "1" "1" "1" "1",
   romOvtNode "2" "Compressed" "2" "2" "2" "2" "2" "2",
   romOvtNode "2" "" "3" "3" "3" "3" "3" "3"]

/-- An overlay-table file of 50 bytes, all zero. -/
def fiftyBytes : List Byte :=
  List.replicate 50 0

/-- The `Header` node of a document holds the six header values as decimal
text. -/
def HeaderHolds (romInfoNode : XmlNode) (h : NDSHeader) : Prop :=
  childValueOf (romInfoNode.child "Header") "MainEntryAddress" = to_string h.arm9EntryAddress ∧
  childValueOf (romInfoNode.child "Header") "MainRamAddress" = to_string h.arm9RamAddress ∧
  childValueOf (romInfoNode.child "Header") "SubEntryAddress" = to_string h.arm7EntryAddress ∧
  childValueOf (romInfoNode.child "Header") "SubRamAddress" = to_string h.arm7RamAddress ∧
  childValueOf (romInfoNode.child "Header") "MainAutoloadDone" =
    to_string h.arm9AutoLoadListHookOffset ∧
  childValueOf (romInfoNode.child "Header") "SubAutoloadDone" =
    to_string h.arm7AutoLoadListHookOffset

instance (romInfoNode : XmlNode) (h : NDSHeader) : Decidable (HeaderHolds romInfoNode h) := by
  unfold HeaderHolds
  infer_instance

/-- The six values of a header record fit an `int`. -/
def NDSHeader.FitsInt (h : NDSHeader) : Prop :=
  h.arm9EntryAddress < 2147483648 ∧ h.arm9RamAddress < 2147483648 ∧
  h.arm7EntryAddress < 2147483648 ∧ h.arm7RamAddress < 2147483648 ∧
  h.arm9AutoLoadListHookOffset < 2147483648 ∧ h.arm7AutoLoadListHookOffset < 2147483648

instance (h : NDSHeader) : Decidable h.FitsInt := by
  unfold NDSHeader.FitsInt
  infer_instance

/-- The id and the five 32-bit fields of a record fit an `int`. -/
def OvtEntry.FitsInt (e : OvtEntry) : Prop :=
  e.overlayID < 2147483648 ∧ e.ramAddress < 2147483648 ∧ e.ramSize < 2147483648 ∧
  e.bssSize < 2147483648 ∧ e.sinitStart < 2147483648 ∧ e.sinitEnd < 2147483648

instance (e : OvtEntry) : Decidable e.FitsInt := by
  unfold OvtEntry.FitsInt
  infer_instance

/-- A node whose `RamAddress` holds `2 ^ 31`, an unsigned 32-bit value. -/
def largeAddressNode : XmlNode :=
  romOvtNode "1" "" "2147483648" "0" "0" "0" "0" "0"

/-- A record whose `ramAddress` is `2 ^ 31`. -/
def largeAddressEntry : OvtEntry :=
  ⟨1, 2147483648, 0, 0, 0, 0, 0, 0, 0⟩

/-- A document with a `Header` node and one overlay on the ARM9 side. -/
def exampleDocument : XmlNode :=
  .element "RomInfo" []
    [.element "Header" []
      [.element "MainEntryAddress" [] [.pcdata "33556480"],
       .element "MainRamAddress" [] [.pcdata "33554432"],
       .element "SubEntryAddress" [] [.pcdata "58720256"],
       .element "SubRamAddress" [] [.pcdata "58720256"],
       .element "MainAutoloadDone" [] [.pcdata "33557172"],
       .element "SubAutoloadDone" [] [.pcdata "58720724"]],
     .element "ARM9Ovt" [] [smallNode],
     .element "ARM7Ovt" [] []]

/-- The header record of `exampleDocument`. -/
def exampleHeader : NDSHeader :=
  ⟨33556480, 33554432, 58720256, 58720256, 33557172, 58720724⟩

/-- Text in which no digit follows the optional leading white space and the
optional sign: the texts on which `std::stoi` throws `std::invalid_argument`.
The empty text, which is also what a missing child yields, is one of them. -/
def NoLeadingNumber (text : String) : Prop :=
  let t := text.data.dropWhile isSpace
  let u := if t.head? == some '-' || t.head? == some '+' then t.tail else t
  (u.head?.map isDigit).getD false = false

instance (text : String) : Decidable (NoLeadingNumber text) := by
  unfold NoLeadingNumber
  infer_instance

/-- Two descriptions whose ids, `2 ^ 31` and `2 ^ 31 + 1`, are distinct
unsigned 32-bit values. -/
def clampedDescriptionA : OverlayDescription :=
  ⟨2147483648, false, false, 1, 0, 0, 0, 0, 0⟩

/-- The second description with an id beyond `INT_MAX`. -/
def clampedDescriptionB : OverlayDescription :=
  ⟨2147483649, false, false, 2, 0, 0, 0, 0, 0⟩

/-- The node holding `clampedDescriptionA`. -/
def clampedNodeA : XmlNode :=
  romOvtNode "2147483648" "" "1" "0" "0" "0" "0" "0"

/-- The node holding `clampedDescriptionB`. -/
def clampedNodeB : XmlNode :=
  romOvtNode "2147483649" "" "2" "0" "0" "0" "0" "0"

/-- A second small description inside the domain of the round trip. -/
def otherDescription : OverlayDescription :=
  ⟨1, false, true, 33558528, 64, 0, 0, 0, 0⟩

/-- The node holding `otherDescription`. -/
def otherNode : XmlNode :=
  romOvtNode "1" "AuthenticationCode" "33558528" "64" "0" "0" "0" "0"

/-- A node whose texts are not decimal numerals of unsigned 32-bit values: a
word as id, trailing letters, leading white space, a plus sign, a minus sign,
and a hexadecimal prefix. -/
def lenientNode : XmlNode :=
  romOvtNode "abc" "" "12abc" " 7" "+3" "-1" "0x10" "5"

/-- A node whose `BssSize` element has no text. -/
def emptyFieldNode : XmlNode :=
  .element "RomOVT" [("Id", "4"), ("Flag", "")]
    [.element "RamAddress" [] [.pcdata "1"],
     .element "RamSize" [] [.pcdata "2"],
     .element "BssSize" [] [],
     .element "SinitInit" [] [.pcdata "0"],
     .element "SinitInitEnd" [] [.pcdata "0"],
     .element "Compressed" [] [.pcdata "0"]]

/-- The worked example of the spec: three overlays in the document order 7, 2,
5 with the flag sets none, `Compressed`, and both. -/
def workedExampleNodes : List XmlNode :=
  [romOvtNode "7" "" "0" "0" "0" "0" "0" "0",
   romOvtNode "2" "Compressed" "0" "0" "0" "0" "0" "0",
   romOvtNode "5" "Compressed AuthenticationCode" "0" "0" "0" "0" "0" "0"]

/-- The descriptions held by `workedExampleNodes`, in document order. -/
def workedExampleDescriptions : List OverlayDescription :=
  [⟨7, false, false, 0, 0, 0, 0, 0, 0⟩, ⟨2, true, false, 0, 0, 0, 0, 0, 0⟩,
   ⟨5, true, true, 0, 0, 0, 0, 0, 0⟩]

/-- Two records agree in every field except `fileID`. -/
def agreeExceptFileID (a b : OvtEntry) : Prop :=
  a.overlayID = b.overlayID ∧ a.ramAddress = b.ramAddress ∧ a.ramSize = b.ramSize ∧
  a.bssSize = b.bssSize ∧ a.sinitStart = b.sinitStart ∧ a.sinitEnd = b.sinitEnd ∧
  a.compressed = b.compressed ∧ a.flag = b.flag

instance (a b : OvtEntry) : Decidable (agreeExceptFileID a b) := by
  unfold agreeExceptFileID
  infer_instance

/-- The document node the spec describes for a record: `Id` as the decimal
text of the id, `Flag` as the canonical string of the two low bits of the flag
byte, then the six values as decimal text in the order `RamAddress`, `RamSize`,
`BssSize`, `SinitInit`, `SinitInitEnd`, `Compressed`. -/
def describedNode (e : OvtEntry) : XmlNode :=
  .element "RomOVT"
    [("Id", to_string e.overlayID),
     ("Flag", canonicalFlag (decide (e.flag % 2 = 1)) (decide (e.flag / 2 % 2 = 1)))]
    [.element "RamAddress" [] [.pcdata (to_string e.ramAddress)],
     .element "RamSize" [] [.pcdata (to_string e.ramSize)],
     .element "BssSize" [] [.pcdata (to_string e.bssSize)],
     .element "SinitInit" [] [.pcdata (to_string e.sinitStart)],
     .element "SinitInitEnd" [] [.pcdata (to_string e.sinitEnd)],
     .element "Compressed" [] [.pcdata (to_string e.compressed)]]

/-- A container that already holds two overlays and a stray text node. -/
def populatedDocument : XmlNode :=
  .element "RomInfo" []
    [.element "Header" [] [],
     .element "ARM9Ovt" [("Count", "2")] [smallNode, .pcdata "stale", otherNode],
     .element "ARM7Ovt" [] [otherNode]]

/-- Two records with the ids 2 and 5, with `fileID = 0`. -/
def twoRecords : List OvtEntry :=
  [⟨2, 33554432, 64, 8, 0, 4, 0, 32, 1⟩, ⟨5, 33558528, 128, 0, 0, 0, 0, 0, 2⟩]

/-- The records of `twoRecords` with other values of `fileID`. -/
def twoRecordsOtherFileID : List OvtEntry :=
  [⟨2, 33554432, 64, 8, 0, 4, 17, 32, 1⟩, ⟨5, 33558528, 128, 0, 0, 0, 4294967295, 0, 2⟩]

/-- A container with two overlays between children of other names: a comment
element, a text node, and an element named `RomOVTs`. -/
def mixedDocument : XmlNode :=
  .element "RomInfo" []
    [.element "ARM9Ovt" []
      [.element "Note" [] [.pcdata "first"], smallNode, .pcdata "text", otherNode,
       .element "RomOVTs" [] []],
     .element "ARM7Ovt" [] []]

/-- A node whose `Flag` attribute names both flags among other words, in the
other order and without a separating blank in one place. -/
def wordyFlagNode : XmlNode :=
  romOvtNode "9" "xAuthenticationCode,NotCompressedAtAll" "0" "0" "0" "0" "0" "0"

/-! ## The header file -/

/-- Modelled from the spec: the constant `sizeof(NDSHeader)`. The declaration
in `ndsheader.hpp` is not among the sources; the spec gives the record six
unsigned 32-bit fields without padding, that is 24 bytes. -/
def sizeofNDSHeader : Nat := 24

/-- Modelled from the spec: the bytes of a header record in memory, the six
fields in the order of the spec, each little-endian. -/
def NDSHeader.toBytes (h : NDSHeader) : List Byte :=
  u32Bytes h.arm9EntryAddress ++ u32Bytes h.arm9RamAddress ++ u32Bytes h.arm7EntryAddress ++
    u32Bytes h.arm7RamAddress ++ u32Bytes h.arm9AutoLoadListHookOffset ++
    u32Bytes h.arm7AutoLoadListHookOffset

/-- Modelled from the spec: the header record held by a buffer; a byte the
buffer lacks counts as zero, as in the value-initialised record that
`std::make_unique<NDSHeader>()` creates. -/
def NDSHeader.ofBytes (bs : List Byte) : NDSHeader :=
  ⟨u32At bs 0, u32At bs 4, u32At bs 8, u32At bs 12, u32At bs 16, u32At bs 20⟩

/-- Lines 207 to 223 of `main`: the header blob written in the forward
direction. `opens` tells whether `header.bin` could be opened for writing. -/
def writeHeader (romInfoNode : XmlNode) (opens : Bool) : Except Failure (List Byte) :=
  match readHeader romInfoNode with
  | .error f => .error f
  | .ok ndsHeader => if !opens then .error .returned_false else .ok ndsHeader.toBytes

/-- Lines 236 to 245 of `main`: the header record loaded in the reverse
direction. `headerFile` is the content of `header.bin`, `none` when it cannot
be opened. `headerFile.read` takes at most `sizeof(NDSHeader)` bytes, and
neither the stream state nor the number of bytes read is looked at. -/
def loadHeader (headerFile : Option (List Byte)) : Except Failure NDSHeader :=
  match headerFile with
  | none => .error .returned_false
  | some bytes => .ok (NDSHeader.ofBytes (bytes.take sizeofNDSHeader))

/-- Lines 236 to 252 of `main`, the reverse direction up to the saved
document: the header is loaded, then `restoreOvt` runs for the ARM9 and the
ARM7 table on the same document. -/
def postBuild (romInfoNode : XmlNode) (headerFile arm9ovt arm7ovt : Option (List Byte))
    (opens9 opens7 : Bool) : Except Failure XmlNode :=
  match loadHeader headerFile with
  | .error f => .error f
  | .ok _ =>
    match restoreOvt romInfoNode true arm9ovt opens9 with
    | .error f => .error f
    | .ok r9 => restoreOvt r9 false arm7ovt opens7

/-- A header file of 10 bytes. -/
def shortHeaderFile : List Byte :=
  [1, 2, 3, 4, 5, 6, 7, 8, 9, 10]

/-- A header file of 30 bytes. -/
def longHeaderFile : List Byte :=
  List.replicate 30 255

/-- Decidable equality of results, for evaluating the program on examples. -/
instance exceptDecEq {ε α : Type} [DecidableEq ε] [DecidableEq α] : DecidableEq (Except ε α)
  | .ok a, .ok b =>
    if h : a = b then isTrue (by rw [h]) else isFalse (fun h2 => h (Except.ok.inj h2))
  | .error a, .error b =>
    if h : a = b then isTrue (by rw [h]) else isFalse (fun h2 => h (Except.error.inj h2))
  | .ok _, .error _ => isFalse (fun h => Except.noConfusion h)
  | .error _, .ok _ => isFalse (fun h => Except.noConfusion h)

/-! ## Decimal numerals -/

theorem toDigitsCore_fuel (f1 : Nat) : ∀ (f2 n : Nat) (ds : List Char), n < f1 → n < f2 →
    Nat.toDigitsCore 10 f1 n ds = Nat.toDigitsCore 10 f2 n ds := by
  induction f1 with
  | zero => intro f2 n ds h; omega
  | succ f1 ih =>
    intro f2 n ds h1 h2
    cases f2 with
    | zero => omega
    | succ f2 =>
      simp only [Nat.toDigitsCore]
      by_cases hz : n / 10 = 0
      · simp [hz]
      · simp only [hz, if_false]
        exact ih f2 (n / 10) _ (by omega) (by omega)

theorem toDigitsCore_append (f : Nat) : ∀ (n : Nat) (ds : List Char),
    Nat.toDigitsCore 10 f n ds = Nat.toDigitsCore 10 f n [] ++ ds := by
  induction f with
  | zero => intro n ds; simp [Nat.toDigitsCore]
  | succ f ih =>
    intro n ds
    simp only [Nat.toDigitsCore]
    by_cases hz : n / 10 = 0
    · simp [hz]
    · simp only [hz, if_false]
      rw [ih (n / 10) (Nat.digitChar (n % 10) :: ds), ih (n / 10) [Nat.digitChar (n % 10)]]
      simp

theorem toDigits_lt10 (n : Nat) (h : n < 10) : Nat.toDigits 10 n = [Nat.digitChar n] := by
  have hz : n / 10 = 0 := by omega
  have hm : n % 10 = n := by omega
  simp [Nat.toDigits, Nat.toDigitsCore, hz, hm]

theorem toDigits_ge10 (n : Nat) (h : 10 ≤ n) :
    Nat.toDigits 10 n = Nat.toDigits 10 (n / 10) ++ [Nat.digitChar (n % 10)] := by
  have hz : ¬ n / 10 = 0 := by omega
  have e : Nat.toDigits 10 n = Nat.toDigitsCore 10 n (n / 10) [Nat.digitChar (n % 10)] := by
    show Nat.toDigitsCore 10 (n + 1) n [] = _
    rw [Nat.toDigitsCore]
    simp [hz]
  rw [e, toDigitsCore_append n (n / 10) [Nat.digitChar (n % 10)],
    toDigitsCore_fuel n (n / 10 + 1) (n / 10) [] (by omega) (by omega)]
  rfl

theorem digitChar_isDigit (k : Nat) (h : k < 10) :
    isDigit (Nat.digitChar k) = true ∧ digitVal (Nat.digitChar k) = k := by
  interval_cases k <;> exact ⟨by decide, by decide⟩

theorem toDigits_allDigits (n : Nat) : ∀ c ∈ Nat.toDigits 10 n, isDigit c = true := by
  induction n using Nat.strong_induction_on with
  | _ n ih =>
    by_cases h : n < 10
    · rw [toDigits_lt10 n h]
      intro c hc
      simp only [List.mem_singleton] at hc
      rw [hc]
      exact (digitChar_isDigit n h).1
    · rw [toDigits_ge10 n (by omega)]
      intro c hc
      rcases List.mem_append.mp hc with hc | hc
      · exact ih (n / 10) (by omega) c hc
      · simp only [List.mem_singleton] at hc
        rw [hc]
        exact (digitChar_isDigit (n % 10) (by omega)).1

theorem toDigits_ne_nil (n : Nat) : Nat.toDigits 10 n ≠ [] := by
  by_cases h : n < 10
  · rw [toDigits_lt10 n h]; simp
  · rw [toDigits_ge10 n (by omega)]; simp

theorem scanDigits_toDigits (n : Nat) : ∀ rest : List Char,
    scanDigits 0 (Nat.toDigits 10 n ++ rest) = scanDigits n rest := by
  induction n using Nat.strong_induction_on with
  | _ n ih =>
    intro rest
    by_cases h : n < 10
    · rw [toDigits_lt10 n h]
      simp [scanDigits, (digitChar_isDigit n h).1, (digitChar_isDigit n h).2]
    · rw [toDigits_ge10 n (by omega), List.append_assoc, ih (n / 10) (by omega)]
      have hd := digitChar_isDigit (n % 10) (by omega)
      simp only [List.singleton_append, scanDigits, hd.1, hd.2, if_true]
      congr 1
      omega

theorem scanDec32_toDigits (n : Nat) (hn : n < 4294967296) : ∀ rest : List Char,
    scanDec32 0 (Nat.toDigits 10 n ++ rest) = scanDec32 n rest := by
  induction n using Nat.strong_induction_on with
  | _ n ih =>
    intro rest
    by_cases h : n < 10
    · rw [toDigits_lt10 n h]
      have hm : n % 4294967296 = n := by omega
      simp [scanDec32, (digitChar_isDigit n h).1, (digitChar_isDigit n h).2, hm]
    · rw [toDigits_ge10 n (by omega), List.append_assoc, ih (n / 10) (by omega) (by omega)]
      have hd := digitChar_isDigit (n % 10) (by omega)
      simp only [List.singleton_append, scanDec32, hd.1, hd.2, if_true]
      congr 1
      omega

theorem toDigits_length_le (k : Nat) : ∀ n : Nat, n < 10 ^ (k + 1) →
    (Nat.toDigits 10 n).length ≤ k + 1 := by
  induction k with
  | zero =>
    intro n h
    rw [toDigits_lt10 n (by simpa using h)]
    simp
  | succ k ih =>
    intro n h
    by_cases h10 : n < 10
    · rw [toDigits_lt10 n h10]; simp
    · rw [toDigits_ge10 n (by omega)]
      have : n / 10 < 10 ^ (k + 1) := by
        rw [Nat.div_lt_iff_lt_mul (by decide)]
        calc n < 10 ^ (k + 1 + 1) := h
          _ = 10 ^ (k + 1) * 10 := by ring
      have := ih (n / 10) this
      simp only [List.length_append, List.length_singleton]
      omega

theorem isDigit_facts (c : Char) (h : isDigit c = true) :
    isSpace c = false ∧ pugiIsSpace c = false ∧ c ≠ '-' ∧ c ≠ '+' ∧ (c.toNat ||| 32) ≠ 120 := by
  simp only [isDigit, Bool.and_eq_true, decide_eq_true_eq] at h
  obtain ⟨h1, h2⟩ := h
  have hne : ∀ d : Char, d.toNat < 48 → c ≠ d := by
    intro d hd hcd
    rw [hcd] at h1
    omega
  refine ⟨?_, ?_, hne _ (by decide), hne _ (by decide), ?_⟩
  · simp only [isSpace, Bool.or_eq_false_iff, Bool.and_eq_false_iff, beq_eq_false_iff_ne,
      decide_eq_false_iff_not]
    omega
  · simp only [pugiIsSpace, Bool.or_eq_false_iff, beq_eq_false_iff_ne]
    omega
  · generalize c.toNat = x at h1 h2
    interval_cases x <;> decide

/-- On a text that starts with a digit, `stoi` returns the value of the leading
run of digits when it fits an `int`. -/
theorem stoi_of_digit (c : Char) (tl : List Char) (hc : isDigit c = true) :
    stoi (String.mk (c :: tl)) =
      if 2147483647 < scanDigits 0 (c :: tl) then .error .out_of_range
      else .ok (scanDigits 0 (c :: tl) : Int) := by
  obtain ⟨hs, _, hm, hp, _⟩ := isDigit_facts c hc
  by_cases hv : 2147483647 < scanDigits 0 (c :: tl)
  · have : (2147483647 : Int) < (scanDigits 0 (c :: tl) : Int) := by exact_mod_cast hv
    simp [stoi, hs, hm, hp, hc, hv, this]
  · have h1 : ¬ (2147483647 : Int) < (scanDigits 0 (c :: tl) : Int) := by exact_mod_cast hv
    have h2 : ¬ ((scanDigits 0 (c :: tl) : Int) < -2147483648) := by omega
    simp [stoi, hs, hm, hp, hc, hv, h1, h2]

theorem toDigits_cons (n : Nat) :
    ∃ c tl, Nat.toDigits 10 n = c :: tl ∧ isDigit c = true := by
  cases hl : Nat.toDigits 10 n with
  | nil => exact absurd hl (toDigits_ne_nil n)
  | cons c tl =>
    exact ⟨c, tl, rfl, toDigits_allDigits n c (by rw [hl]; exact List.mem_cons_self c tl)⟩

/-- The numeral of a value below `2 ^ 31` is read back by `stoi`. -/
theorem stoi_to_string (n : Nat) (h : n < 2147483648) : stoi (to_string n) = .ok (n : Int) := by
  obtain ⟨c, tl, hl, hc⟩ := toDigits_cons n
  have hv : scanDigits 0 (c :: tl) = n := by
    have := scanDigits_toDigits n []
    rw [List.append_nil, hl] at this
    simpa [scanDigits] using this
  unfold to_string
  rw [hl, stoi_of_digit c tl hc, hv]
  have : ¬ 2147483647 < n := by omega
  simp [this]

/-- The numeral of a value of `2 ^ 31` or more makes `stoi` throw. -/
theorem stoi_to_string_large (n : Nat) (h : 2147483648 ≤ n) :
    stoi (to_string n) = .error .out_of_range := by
  obtain ⟨c, tl, hl, hc⟩ := toDigits_cons n
  have hv : scanDigits 0 (c :: tl) = n := by
    have := scanDigits_toDigits n []
    rw [List.append_nil, hl] at this
    simpa [scanDigits] using this
  unfold to_string
  rw [hl, stoi_of_digit c tl hc, hv]
  have : 2147483647 < n := by omega
  simp [this]

theorem toU32_natCast (n : Nat) (h : n < 4294967296) : toU32 (n : Int) = n := by
  unfold toU32
  omega

theorem toU24_natCast (n : Nat) (h : n < 16777216) : toU24 (n : Int) = n := by
  unfold toU24
  omega

theorem scanDec32_dropZeros : ∀ l : List Char,
    scanDec32 0 (l.dropWhile (fun c => c == '0')) = scanDec32 0 l := by
  intro l
  induction l with
  | nil => rfl
  | cons c tl ih =>
    by_cases hc : c = '0'
    · subst hc
      simp only [List.dropWhile_cons, beq_self_eq_true, if_true, ih]
      simp [scanDec32, isDigit, digitVal]
    · simp [List.dropWhile_cons, hc]

theorem runLength_le (p : Char → Bool) (s : List Char) : runLength p s ≤ s.length := by
  unfold runLength
  exact (List.takeWhile_sublist p).length_le

theorem toDigits_head (k : Nat) : ∀ n : Nat, 10 ^ k ≤ n → n < 10 ^ (k + 1) →
    (Nat.toDigits 10 n).head? = some (Nat.digitChar (n / 10 ^ k)) := by
  induction k with
  | zero =>
    intro n _ h
    rw [toDigits_lt10 n (by simpa using h)]
    simp
  | succ k ih =>
    intro n h1 h2
    have hk : 0 < 10 ^ k := Nat.pos_pow_of_pos k (by decide)
    have e1 : 10 ^ (k + 1) = 10 ^ k * 10 := by ring
    have e2 : 10 ^ (k + 1 + 1) = 10 ^ (k + 1) * 10 := by ring
    have h10 : 10 ≤ n := by omega
    rw [toDigits_ge10 n h10]
    obtain ⟨c, tl, hl, _⟩ := toDigits_cons (n / 10)
    have hh := ih (n / 10) (by omega) (by omega)
    rw [hl] at hh ⊢
    simp only [List.cons_append, List.head?_cons] at hh ⊢
    rw [hh, Nat.div_div_eq_div_mul, e1, Nat.mul_comm 10 (10 ^ k)]

theorem scanDecNumber_toDigits (n : Nat) (h : n < 2147483648) :
    scanDecNumber (Nat.toDigits 10 n) = (n, false) := by
  obtain ⟨c, tl, hl, hc⟩ := toDigits_cons n
  have hres : scanDec32 0 ((c :: tl).dropWhile (fun c => c == '0')) = n := by
    rw [scanDec32_dropZeros, ← hl]
    have := scanDec32_toDigits n (by omega) []
    simpa [scanDec32] using this
  have hlen : runLength isDigit ((c :: tl).dropWhile (fun c => c == '0')) ≤ (c :: tl).length :=
    le_trans (runLength_le _ _) (List.dropWhile_sublist _).length_le
  rw [hl]
  unfold scanDecNumber
  simp only [hres, Prod.mk.injEq, true_and]
  by_cases hsmall : n < 1000000000
  · have h9 := toDigits_length_le 8 n (by simpa using hsmall)
    rw [hl] at h9
    have : ¬ 10 ≤ runLength isDigit ((c :: tl).dropWhile (fun c => c == '0')) := by omega
    simp [this]
  · have h10 := toDigits_length_le 9 n (by norm_num; omega)
    have hh := toDigits_head 9 n (by norm_num; omega) (by norm_num; omega)
    rw [hl] at h10 hh
    simp only [List.head?_cons, Option.some.injEq] at hh
    have hq : n / 10 ^ 9 = 1 ∨ n / 10 ^ 9 = 2 := by
      have : n / 10 ^ 9 < 3 := by
        rw [Nat.div_lt_iff_lt_mul (by norm_num)]
        norm_num
        omega
      have : 0 < n / 10 ^ 9 := Nat.div_pos (by norm_num; omega) (by norm_num)
      omega
    have hc0 : (c == '0') = false := by
      rcases hq with hq | hq <;> rw [hq] at hh <;> rw [hh] <;> decide
    have hlead : c.toNat < 52 := by
      rcases hq with hq | hq <;> rw [hq] at hh <;> rw [hh] <;> decide
    simp only [List.dropWhile_cons, hc0, Bool.false_eq_true, if_false, List.head?_cons,
      Option.map_some', Option.getD_some]
    simp only [List.dropWhile_cons, hc0, Bool.false_eq_true, if_false] at hlen
    by_cases hge : 10 ≤ runLength isDigit (c :: tl)
    · have : runLength isDigit (c :: tl) = 10 := by omega
      simp [this, hlead]
    · simp [hge]

/-- The numeral of a value below `2 ^ 31` is read back by pugixml's
`string_to_integer` with the bounds of `int`. -/
theorem string_to_integer_toDigits (n : Nat) (h : n < 2147483648) :
    string_to_integer (Nat.toDigits 10 n) 2147483648 2147483647 = n := by
  have hscan := scanDecNumber_toDigits n h
  obtain ⟨c, tl, hl, hc⟩ := toDigits_cons n
  obtain ⟨_, hs, hm, hp, _⟩ := isDigit_facts c hc
  have hhex : (tl.head?.map (fun c => c.toNat ||| 32) == some 120) = false := by
    cases tl with
    | nil => simp
    | cons d tl2 =>
      have hd : isDigit d = true := toDigits_allDigits n d (by rw [hl]; simp)
      simpa using (isDigit_facts d hd).2.2.2.2
  rw [hl] at hscan ⊢
  have h0 : (c :: tl).dropWhile pugiIsSpace = c :: tl := by simp [hs]
  have hneg : ((c :: tl).head? == some '-') = false := by simp [hm]
  have hpos : ((c :: tl).head? == some '+') = false := by simp [hp]
  have : ¬ 2147483647 < n := by omega
  simp only [string_to_integer, h0, hneg, hpos, Bool.or_self, Bool.false_eq_true, if_false,
    List.tail_cons, hhex, Bool.and_false, hscan, Bool.false_or, decide_eq_true_eq, this]

theorem as_int_to_string (n : Nat) (h : n < 2147483648) :
    toU32 (as_int (some (to_string n))) = n := by
  have : as_int (some (to_string n)) = (n : Int) := by
    show toInt32 (string_to_integer (Nat.toDigits 10 n) 2147483648 2147483647) = n
    rw [string_to_integer_toDigits n h]
    simp [toInt32, h]
  rw [this]
  exact toU32_natCast n (by omega)

/-! ## The byte layout -/

theorem toBytes_length (e : OvtEntry) : e.toBytes.length = 32 := by
  simp [OvtEntry.toBytes, u32Bytes]

theorem ofBytes_toBytes (e : OvtEntry) (h : e.WF) : OvtEntry.ofBytes e.toBytes = e := by
  obtain ⟨h1, h2, h3, h4, h5, h6, h7, h8, h9⟩ := h
  cases e with
  | mk a b c d e f g k m =>
    simp only at h1 h2 h3 h4 h5 h6 h7 h8 h9
    simp only [OvtEntry.ofBytes, OvtEntry.toBytes, u32Bytes, u32At, byteOf, List.cons_append,
      List.nil_append, List.getD_cons_zero, List.getD_cons_succ, OvtEntry.mk.injEq]
    refine ⟨?_, ?_, ?_, ?_, ?_, ?_, ?_, ?_, ?_⟩ <;> omega

theorem writeEntries_cons (e : OvtEntry) (es : List OvtEntry) :
    writeEntries (e :: es) = e.toBytes ++ writeEntries es := by
  simp [writeEntries]

theorem writeEntries_length (es : List OvtEntry) : (writeEntries es).length = 32 * es.length := by
  induction es with
  | nil => rfl
  | cons e es ih =>
    rw [writeEntries_cons, List.length_append, toBytes_length, ih, List.length_cons]
    omega

/-- Reading back a written record array gives the records that were written. -/
theorem readRecords_writeEntries (es : List OvtEntry) (h : ∀ e ∈ es, e.WF) :
    ∀ extra : List Byte, readRecords es.length (writeEntries es ++ extra) = es := by
  induction es with
  | nil => intro extra; rfl
  | cons e es ih =>
    intro extra
    have hl := toBytes_length e
    rw [writeEntries_cons, List.length_cons, List.append_assoc]
    simp only [readRecords]
    rw [List.take_left' hl, List.drop_left' hl, ofBytes_toBytes e (h e (List.mem_cons_self e es)),
      ih (fun x hx => h x (List.mem_cons_of_mem e hx))]

/-! ## Sorting: the result is determined when the ids are distinct -/

theorem strict_of_sorted_nodup (l : List OvtEntry)
    (hs : l.Pairwise (fun a b => ¬ ovtLess b a))
    (hn : (l.map (fun e => e.overlayID)).Nodup) :
    l.Pairwise (fun a b => a.overlayID < b.overlayID) := by
  have hne : l.Pairwise (fun a b => a.overlayID ≠ b.overlayID) := by
    unfold List.Nodup at hn
    rwa [List.pairwise_map] at hn
  refine List.Pairwise.imp₂ ?_ hs hne
  intro a b h1 h2
  unfold ovtLess at h1
  omega

theorem sorted_perm_unique (l₁ l₂ : List OvtEntry) (hp : l₁.Perm l₂)
    (h1 : l₁.Pairwise (fun a b => ¬ ovtLess b a))
    (h2 : l₂.Pairwise (fun a b => ¬ ovtLess b a))
    (hn : (l₁.map (fun e => e.overlayID)).Nodup) : l₁ = l₂ := by
  have hn2 : (l₂.map (fun e => e.overlayID)).Nodup := (hp.map _).nodup_iff.mp hn
  haveI : IsAntisymm OvtEntry (fun a b => a.overlayID < b.overlayID) :=
    ⟨fun a b hab hba => absurd hab (Nat.lt_asymm hba)⟩
  exact List.eq_of_perm_of_sorted hp (strict_of_sorted_nodup l₁ h1 hn)
    (strict_of_sorted_nodup l₂ h2 hn2)

/-- Every implementation of `std::sort` leaves an array with strictly
ascending ids as it is. -/
theorem sort_of_ascending (S : StdSort) (l : List OvtEntry)
    (h : l.Pairwise (fun a b => a.overlayID < b.overlayID)) : S.sort l = l := by
  have hn : (l.map (fun e => e.overlayID)).Nodup := by
    unfold List.Nodup
    rw [List.pairwise_map]
    exact h.imp (fun hab => Nat.ne_of_lt hab)
  have hs : l.Pairwise (fun a b => ¬ ovtLess b a) := by
    refine h.imp ?_
    intro a b hab
    unfold ovtLess
    omega
  exact sorted_perm_unique (S.sort l) l (S.perm l) (S.sorted l) hs
    ((S.perm l).map _ |>.nodup_iff.mpr hn)

/-- Every implementation of `std::sort` gives the same array on permutations
of records with distinct ids. -/
theorem sort_perm_eq (S : StdSort) (l₁ l₂ : List OvtEntry) (hp : l₁.Perm l₂)
    (hn : (l₁.map (fun e => e.overlayID)).Nodup) : S.sort l₁ = S.sort l₂ := by
  refine sorted_perm_unique _ _ ?_ (S.sorted l₁) (S.sorted l₂) ?_
  · exact (S.perm l₁).trans (hp.trans (S.perm l₂).symm)
  · exact ((S.perm l₁).map _).nodup_iff.mpr hn

/-! ## Flags -/

theorem flagOfString_canonical (c a : Bool) :
    flagOfString (canonicalFlag c a) = flagByte c a := by
  cases c <;> cases a <;> decide

theorem flagValue_flagByte (c a : Bool) : flagValue (flagByte c a) = canonicalFlag c a := by
  cases c <;> cases a <;> decide

theorem flagByte_lt (c a : Bool) : flagByte c a < 4 := by
  cases c <;> cases a <;> decide

theorem flagOfString_flagValue (f : Nat) (h : f < 4) : flagOfString (flagValue f) = f := by
  interval_cases f <;> decide

theorem flagOfString_lt (s : String) : flagOfString s < 4 := by
  unfold flagOfString OVERLAY_FLAG_COMP OVERLAY_FLAG_AUTH
  split <;> split <;> decide

/-! ## The loop body of `generateOvt` -/

theorem toU24_natCast_mod (n : Nat) : toU24 (n : Int) = n % 16777216 := by
  unfold toU24
  omega

theorem readEntry_ok (node : XmlNode) (ra rs bs si se c : Int)
    (h1 : stoi (node.child_value "RamAddress") = .ok ra)
    (h2 : stoi (node.child_value "RamSize") = .ok rs)
    (h3 : stoi (node.child_value "BssSize") = .ok bs)
    (h4 : stoi (node.child_value "SinitInit") = .ok si)
    (h5 : stoi (node.child_value "SinitInitEnd") = .ok se)
    (h6 : stoi (node.child_value "Compressed") = .ok c) :
    readEntry node = .ok
      { overlayID := toU32 (as_int (node.attr "Id"))
        ramAddress := toU32 ra
        ramSize := toU32 rs
        bssSize := toU32 bs
        sinitStart := toU32 si
        sinitEnd := toU32 se
        fileID := 0
        compressed := toU24 c
        flag := flagOfString (as_string (node.attr "Flag")) % 256 } := by
  simp [readEntry, h1, h2, h3, h4, h5, h6, bind, Except.bind, pure, Except.pure, OvtEntry.zero]

theorem readEntry_inv (node : XmlNode) (e : OvtEntry) (h : readEntry node = .ok e) :
    ∃ ra rs bs si se c : Int,
      stoi (node.child_value "RamAddress") = .ok ra ∧
      stoi (node.child_value "RamSize") = .ok rs ∧
      stoi (node.child_value "BssSize") = .ok bs ∧
      stoi (node.child_value "SinitInit") = .ok si ∧
      stoi (node.child_value "SinitInitEnd") = .ok se ∧
      stoi (node.child_value "Compressed") = .ok c := by
  unfold readEntry at h
  cases h1 : stoi (node.child_value "RamAddress") with
  | error f => simp [h1, bind, Except.bind] at h
  | ok ra =>
    cases h2 : stoi (node.child_value "RamSize") with
    | error f => simp [h1, h2, bind, Except.bind] at h
    | ok rs =>
      cases h3 : stoi (node.child_value "BssSize") with
      | error f => simp [h1, h2, h3, bind, Except.bind] at h
      | ok bs =>
        cases h4 : stoi (node.child_value "SinitInit") with
        | error f => simp [h1, h2, h3, h4, bind, Except.bind] at h
        | ok si =>
          cases h5 : stoi (node.child_value "SinitInitEnd") with
          | error f => simp [h1, h2, h3, h4, h5, bind, Except.bind] at h
          | ok se =>
            cases h6 : stoi (node.child_value "Compressed") with
            | error f => simp [h1, h2, h3, h4, h5, h6, bind, Except.bind] at h
            | ok c => exact ⟨ra, rs, bs, si, se, c, rfl, rfl, rfl, rfl, rfl, rfl⟩

theorem toU32_lt (v : Int) : toU32 v < 4294967296 := by
  unfold toU32
  omega

theorem toU24_lt (v : Int) : toU24 v < 16777216 := by
  unfold toU24
  omega

/-- A record read from the document is well formed, with `fileID = 0` and a
flag byte below 4. -/
theorem readEntry_WF (node : XmlNode) (e : OvtEntry) (h : readEntry node = .ok e) :
    e.WF ∧ e.fileID = 0 ∧ e.flag < 4 := by
  obtain ⟨ra, rs, bs, si, se, c, h1, h2, h3, h4, h5, h6⟩ := readEntry_inv node e h
  rw [readEntry_ok node ra rs bs si se c h1 h2 h3 h4 h5 h6] at h
  have he := Except.ok.inj h
  subst he
  have hf := flagOfString_lt (as_string (node.attr "Flag"))
  refine ⟨⟨toU32_lt _, toU32_lt _, toU32_lt _, toU32_lt _, toU32_lt _, toU32_lt _, Nat.zero_lt_succ _,
    toU24_lt _, ?_⟩, rfl, ?_⟩
  · show flagOfString (as_string (node.attr "Flag")) % 256 < 256
    omega
  · show flagOfString (as_string (node.attr "Flag")) % 256 < 4
    omega

/-- A failing numeric field makes the loop body fail with one of the two
exceptions of `std::stoi`. -/
theorem stoi_error_kind (s : String) (f : Failure) (h : stoi s = .error f) :
    f = .invalid_argument ∨ f = .out_of_range := by
  unfold stoi at h
  simp only at h
  repeat' split at h
  all_goals first
    | (injection h with h1; rw [← h1]; simp)
    | (injection h)

theorem readEntry_describes (node : XmlNode) (d : OverlayDescription) (h : Describes node d)
    (hid : d.id < 2147483648) (hf : d.FieldsFitInt) : readEntry node = .ok (recordOf d) := by
  obtain ⟨_, hi, hfl, h1, h2, h3, h4, h5, h6⟩ := h
  obtain ⟨f1, f2, f3, f4, f5, f6⟩ := hf
  rw [readEntry_ok node d.ramAddress d.ramSize d.bssSize d.staticInitStart d.staticInitEnd
    d.compressedSize (by rw [h1]; exact stoi_to_string _ f1) (by rw [h2]; exact stoi_to_string _ f2)
    (by rw [h3]; exact stoi_to_string _ f3) (by rw [h4]; exact stoi_to_string _ f4)
    (by rw [h5]; exact stoi_to_string _ f5) (by rw [h6]; exact stoi_to_string _ f6)]
  have hb := flagByte_lt d.compressedFlag d.authFlag
  rw [hi, as_int_to_string d.id hid, hfl, flagOfString_canonical, toU24_natCast_mod,
    toU32_natCast _ (by omega), toU32_natCast _ (by omega), toU32_natCast _ (by omega),
    toU32_natCast _ (by omega), toU32_natCast _ (by omega),
    Nat.mod_eq_of_lt (show flagByte d.compressedFlag d.authFlag < 256 by omega)]
  rfl

theorem readEntry_describes_fit (node : XmlNode) (d : OverlayDescription) (h : Describes node d)
    (hf : d.FieldsFitInt) : ∃ e, readEntry node = .ok e := by
  obtain ⟨_, _, _, h1, h2, h3, h4, h5, h6⟩ := h
  obtain ⟨f1, f2, f3, f4, f5, f6⟩ := hf
  exact ⟨_, readEntry_ok node d.ramAddress d.ramSize d.bssSize d.staticInitStart d.staticInitEnd
    d.compressedSize (by rw [h1]; exact stoi_to_string _ f1) (by rw [h2]; exact stoi_to_string _ f2)
    (by rw [h3]; exact stoi_to_string _ f3) (by rw [h4]; exact stoi_to_string _ f4)
    (by rw [h5]; exact stoi_to_string _ f5) (by rw [h6]; exact stoi_to_string _ f6)⟩

theorem readEntry_describes_fail (node : XmlNode) (d : OverlayDescription) (h : Describes node d)
    (hf : ¬ d.FieldsFitInt) : readEntry node = .error .out_of_range := by
  obtain ⟨_, _, _, h1, h2, h3, h4, h5, h6⟩ := h
  unfold readEntry
  rw [h1, h2, h3, h4, h5, h6]
  by_cases f1 : d.ramAddress < 2147483648
  swap
  · simp [stoi_to_string_large _ (Nat.le_of_not_lt f1), bind, Except.bind]
  by_cases f2 : d.ramSize < 2147483648
  swap
  · simp [stoi_to_string _ f1, stoi_to_string_large _ (Nat.le_of_not_lt f2), bind, Except.bind]
  by_cases f3 : d.bssSize < 2147483648
  swap
  · simp [stoi_to_string _ f1, stoi_to_string _ f2, stoi_to_string_large _ (Nat.le_of_not_lt f3),
      bind, Except.bind]
  by_cases f4 : d.staticInitStart < 2147483648
  swap
  · simp [stoi_to_string _ f1, stoi_to_string _ f2, stoi_to_string _ f3,
      stoi_to_string_large _ (Nat.le_of_not_lt f4), bind, Except.bind]
  by_cases f5 : d.staticInitEnd < 2147483648
  swap
  · simp [stoi_to_string _ f1, stoi_to_string _ f2, stoi_to_string _ f3, stoi_to_string _ f4,
      stoi_to_string_large _ (Nat.le_of_not_lt f5), bind, Except.bind]
  by_cases f6 : d.compressedSize < 2147483648
  swap
  · simp [stoi_to_string _ f1, stoi_to_string _ f2, stoi_to_string _ f3, stoi_to_string _ f4,
      stoi_to_string _ f5, stoi_to_string_large _ (Nat.le_of_not_lt f6), bind, Except.bind]
  exact absurd ⟨f1, f2, f3, f4, f5, f6⟩ hf

/-! ## The loop of `generateOvt` -/

theorem readEntries_cons_ok (node : XmlNode) (rest : List XmlNode) (e : OvtEntry)
    (es : List OvtEntry) (hn : node.name = "RomOVT") (h1 : readEntry node = .ok e)
    (h2 : readEntries rest = .ok es) : readEntries (node :: rest) = .ok (e :: es) := by
  simp [readEntries, hn, h1, h2, bind, Except.bind, pure, Except.pure]

theorem readEntries_describes (nodes : List XmlNode) (ds : List OverlayDescription)
    (h : List.Forall₂ Describes nodes ds)
    (hr : ∀ d ∈ ds, d.id < 2147483648 ∧ d.FieldsFitInt) :
    readEntries nodes = .ok (ds.map recordOf) := by
  induction h with
  | nil => rfl
  | @cons node d nodes ds hd _ ih =>
    have hd1 := hr d (List.mem_cons_self d ds)
    rw [List.map_cons]
    exact readEntries_cons_ok node nodes _ _ hd.1 (readEntry_describes node d hd hd1.1 hd1.2)
      (ih (fun x hx => hr x (List.mem_cons_of_mem d hx)))

theorem readEntries_describes_fail (nodes : List XmlNode) (ds : List OverlayDescription)
    (h : List.Forall₂ Describes nodes ds) (hr : ∃ d ∈ ds, ¬ d.FieldsFitInt) :
    readEntries nodes = .error .out_of_range := by
  induction h with
  | nil =>
    obtain ⟨d, hd, _⟩ := hr
    simp at hd
  | @cons node d nodes ds hd _ ih =>
    by_cases hf : d.FieldsFitInt
    · obtain ⟨e, he⟩ := readEntry_describes_fit node d hd hf
      have hrest : ∃ x ∈ ds, ¬ x.FieldsFitInt := by
        obtain ⟨x, hx, hxf⟩ := hr
        rcases List.mem_cons.mp hx with hx | hx
        · rw [hx] at hxf
          exact absurd hf hxf
        · exact ⟨x, hx, hxf⟩
      simp [readEntries, hd.1, he, ih hrest, bind, Except.bind]
    · simp [readEntries, hd.1, readEntry_describes_fail node d hd hf, bind, Except.bind]

/-- Every record read by the loop is well formed, with `fileID = 0` and a flag
byte below 4. -/
theorem readEntries_WF (nodes : List XmlNode) : ∀ es : List OvtEntry,
    readEntries nodes = .ok es → ∀ e ∈ es, e.WF ∧ e.fileID = 0 ∧ e.flag < 4 := by
  induction nodes with
  | nil =>
    intro es h e he
    have : es = [] := (Except.ok.inj h).symm
    rw [this] at he
    simp at he
  | cons node rest ih =>
    intro es h e he
    unfold readEntries at h
    by_cases hn : node.name = "RomOVT"
    · simp only [hn, ne_eq, not_true_eq_false, if_false] at h
      cases h1 : readEntry node with
      | error f => simp [h1, bind, Except.bind] at h
      | ok e1 =>
        cases h2 : readEntries rest with
        | error f => simp [h1, h2, bind, Except.bind] at h
        | ok es1 =>
          simp only [h1, h2, bind, Except.bind, pure, Except.pure, Except.ok.injEq] at h
          rw [← h] at he
          rcases List.mem_cons.mp he with he | he
          · rw [he]
            exact readEntry_WF node e1 h1
          · exact ih es1 h2 e he
    · simp only [hn, ne_eq, not_false_eq_true, if_true] at h
      exact ih es h e he

/-! ## `generateOvt` and `restoreOvt` as a whole -/

theorem generateOvt_eq (S : StdSort) (romInfoNode : XmlNode) (isArm9 opens : Bool) :
    generateOvt S romInfoNode isArm9 opens =
      match readEntries (ovtChildren romInfoNode isArm9) with
      | .error f => .error f
      | .ok es => if opens then .ok (writeEntries (S.sort es)) else .error .returned_false := by
  unfold generateOvt ovtChildren
  cases h : readEntries (childrenOf (romInfoNode.child (ovtNodeName isArm9))) with
  | error f => simp [h, bind, Except.bind]
  | ok es => cases opens <;> simp [h, bind, Except.bind]

theorem find_setChildrenOfFirst (childName : String) (newChildren : List XmlNode) :
    ∀ cs : List XmlNode, (cs.find? (XmlNode.isNamed childName)).isSome →
      childrenOf ((setChildrenOfFirst childName newChildren cs).find?
        (XmlNode.isNamed childName)) = newChildren := by
  intro cs
  induction cs with
  | nil => intro h; simp at h
  | cons c rest ih =>
    intro h
    cases c with
    | pcdata v =>
      simp only [setChildrenOfFirst, List.find?_cons, XmlNode.isNamed] at h ⊢
      exact ih h
    | element n as cs2 =>
      by_cases hn : (n == childName) = true
      · simp [setChildrenOfFirst, hn, List.find?_cons, XmlNode.isNamed, childrenOf,
          XmlNode.children]
      · simp only [Bool.not_eq_true] at hn
        simp only [setChildrenOfFirst, hn, List.find?_cons, XmlNode.isNamed, Bool.false_eq_true,
          if_false] at h ⊢
        exact ih h

/-- On a file that exists and opens, `restoreOvt` returns `true`, and the
container then holds one node per record of the file, in array order. -/
theorem restoreOvt_ok (romInfoNode : XmlNode) (isArm9 : Bool) (bytes : List Byte)
    (h : (romInfoNode.child (ovtNodeName isArm9)).isSome) :
    ∃ r, restoreOvt romInfoNode isArm9 (some bytes) true = .ok r ∧
      ovtChildren r isArm9 = (readRecords (bytes.length / 32) bytes).map entryNodeOf := by
  cases romInfoNode with
  | pcdata v => simp [XmlNode.child, XmlNode.children] at h
  | element n as cs =>
    refine ⟨_, rfl, ?_⟩
    exact find_setChildrenOfFirst _ _ cs h

theorem perm_WF (S : StdSort) (nodes : List XmlNode) (es : List OvtEntry)
    (h : readEntries nodes = .ok es) : ∀ e ∈ S.sort es, e.WF :=
  fun e he => (readEntries_WF nodes es h e ((S.perm es).mem_iff.mp he)).1

theorem readRecords_written (es : List OvtEntry) (h : ∀ e ∈ es, e.WF) :
    readRecords ((writeEntries es).length / 32) (writeEntries es) = es := by
  have hl : (writeEntries es).length / 32 = es.length := by
    rw [writeEntries_length]
    omega
  have := readRecords_writeEntries es h []
  rw [List.append_nil] at this
  rw [hl, this]

theorem generateOvt_ok_inv (S : StdSort) (romInfoNode : XmlNode) (isArm9 opens : Bool)
    (bytes : List Byte) (h : generateOvt S romInfoNode isArm9 opens = .ok bytes) :
    ∃ es, readEntries (ovtChildren romInfoNode isArm9) = .ok es ∧
      bytes = writeEntries (S.sort es) := by
  rw [generateOvt_eq] at h
  cases hr : readEntries (ovtChildren romInfoNode isArm9) with
  | error f => simp [hr] at h
  | ok es =>
    cases opens with
    | false => simp [hr] at h
    | true =>
      simp only [hr, if_true, Except.ok.injEq] at h
      exact ⟨es, rfl, h.symm⟩

/-- The two transforms in sequence: when the loop of `generateOvt` reads the
records `es`, the file holds them sorted and `restoreOvt` builds one node per
sorted record. -/
theorem generate_then_restore (S : StdSort) (romInfoNode target : XmlNode) (isArm9 : Bool)
    (es : List OvtEntry) (hread : readEntries (ovtChildren romInfoNode isArm9) = .ok es)
    (ht : (target.child (ovtNodeName isArm9)).isSome) :
    generateOvt S romInfoNode isArm9 true = .ok (writeEntries (S.sort es)) ∧
    ∃ r, restoreOvt target isArm9 (some (writeEntries (S.sort es))) true = .ok r ∧
      ovtChildren r isArm9 = (S.sort es).map entryNodeOf := by
  refine ⟨by rw [generateOvt_eq, hread]; rfl, ?_⟩
  obtain ⟨r, hr, hc⟩ := restoreOvt_ok target isArm9 (writeEntries (S.sort es)) ht
  refine ⟨r, hr, ?_⟩
  rw [hc, readRecords_written _ (perm_WF S _ es hread)]

theorem entryNodeOf_describes (d : OverlayDescription) (h : d.compressedSize < 16777216) :
    Describes (entryNodeOf (recordOf d)) d := by
  refine ⟨rfl, rfl, ?_, rfl, rfl, rfl, rfl, rfl, ?_⟩
  · show flagValue (flagByte d.compressedFlag d.authFlag) = _
    exact flagValue_flagByte _ _
  · show to_string (d.compressedSize % 16777216) = _
    rw [Nat.mod_eq_of_lt h]

theorem sort_map_recordOf (S : StdSort) (ds : List OverlayDescription)
    (hid : (ds.map (fun d => d.id)).Nodup) :
    S.sort (ds.map recordOf) = (sortById ds).map recordOf := by
  haveI : IsTotal OverlayDescription (fun a b => a.id ≤ b.id) :=
    ⟨fun a b => Nat.le_total a.id b.id⟩
  haveI : IsTrans OverlayDescription (fun a b => a.id ≤ b.id) :=
    ⟨fun _ _ _ hab hbc => Nat.le_trans hab hbc⟩
  have hp : (sortById ds).Perm ds := List.perm_insertionSort _ ds
  have hs : (sortById ds).Pairwise (fun a b => a.id ≤ b.id) := List.sorted_insertionSort _ ds
  refine sorted_perm_unique _ _ ((S.perm _).trans (hp.map recordOf).symm) (S.sorted _) ?_ ?_
  · rw [List.pairwise_map]
    refine hs.imp ?_
    intro a b hab
    show ¬ (b.id < a.id)
    omega
  · refine ((S.perm _).map _).nodup_iff.mpr ?_
    rw [List.map_map]
    exact hid

/-! ## C1: round trip, decode after encode -/

/-- C1, as stated, fails: the description `wideDescription` has unsigned
32-bit fields held as decimal text, `generateOvt` and `restoreOvt` both
succeed on it, and the node that comes back holds the compressed size `0`
instead of `16777216`, so it does not describe the input. -/
theorem C1_counterexample :
    Describes wideNode wideDescription ∧ wideDescription.IsU32 ∧
    (∃ bytes r, generateOvt insertionStdSort (romInfoOf [wideNode]) true true = .ok bytes ∧
      restoreOvt (romInfoOf [wideNode]) true (some bytes) true = .ok r ∧
      (ovtChildren r true).map (fun n => n.child_value "Compressed") = ["0"] ∧
      ¬ List.Forall₂ Describes (ovtChildren r true) [wideDescription]) := by
  refine ⟨by decide, by decide, ?_⟩
  obtain ⟨hg, r, hr, hc⟩ := generate_then_restore insertionStdSort (romInfoOf [wideNode])
    (romInfoOf [wideNode]) true [recordOf wideDescription] (by decide) (by decide)
  refine ⟨_, r, hg, hr, ?_, ?_⟩
  · rw [hc]
    decide
  · rw [hc]
    intro h
    have h1 : Describes (entryNodeOf (recordOf wideDescription)) wideDescription := by
      have hs : insertionStdSort.sort [recordOf wideDescription] = [recordOf wideDescription] := by
        decide
      rw [hs] at h
      cases h with
      | cons h1 _ => exact h1
    revert h1
    decide

/-- C1, amended: for every collection of overlay descriptions with pairwise
distinct ids in which the id and the five fields ramAddress, ramSize, bssSize,
staticInitStart, staticInitEnd are below `2 ^ 31` and compressedSize is below
`2 ^ 24`, held in the container as decimal text, `generateOvt` writes a record
array and `restoreOvt` applied to it yields nodes that describe a permutation
of the input descriptions (same id, same flag set, same six values), whatever
the document order and whatever `std::sort` does. -/
theorem roundtrip_decode_encode (S : StdSort) (romInfoNode target : XmlNode) (isArm9 : Bool)
    (ds : List OverlayDescription)
    (hdoc : List.Forall₂ Describes (ovtChildren romInfoNode isArm9) ds)
    (hid : (ds.map (fun d => d.id)).Nodup)
    (hrange : ∀ d ∈ ds, d.InRange)
    (ht : (target.child (ovtNodeName isArm9)).isSome) :
    ∃ bytes r ds', generateOvt S romInfoNode isArm9 true = .ok bytes ∧
      restoreOvt target isArm9 (some bytes) true = .ok r ∧
      ds'.Perm ds ∧ List.Forall₂ Describes (ovtChildren r isArm9) ds' := by
  have hfit : ∀ d ∈ ds, d.id < 2147483648 ∧ d.FieldsFitInt := by
    intro d hd
    obtain ⟨h0, h1, h2, h3, h4, h5, h6⟩ := hrange d hd
    exact ⟨h0, h1, h2, h3, h4, h5, by omega⟩
  have hread := readEntries_describes _ ds hdoc hfit
  obtain ⟨hg, r, hr, hc⟩ := generate_then_restore S romInfoNode target isArm9 _ hread ht
  refine ⟨_, r, sortById ds, hg, hr, List.perm_insertionSort _ ds, ?_⟩
  rw [hc, sort_map_recordOf S ds hid, List.map_map]
  have hmem : ∀ d ∈ sortById ds, d.InRange := fun d hd =>
    hrange d ((List.perm_insertionSort _ ds).mem_iff.mp hd)
  generalize sortById ds = l at hmem
  induction l with
  | nil => exact List.Forall₂.nil
  | cons d l ih =>
    refine List.Forall₂.cons ?_ (ih (fun x hx => hmem x (List.mem_cons_of_mem d hx)))
    exact entryNodeOf_describes d (hmem d (List.mem_cons_self d l)).2.2.2.2.2.2

/-- C1, amended, at a concrete document. -/
theorem roundtrip_decode_encode_witness :
    ∃ bytes r ds', generateOvt insertionStdSort (romInfoOf [smallNode]) true true = .ok bytes ∧
      restoreOvt (romInfoOf []) true (some bytes) true = .ok r ∧
      ds'.Perm [smallDescription] ∧ List.Forall₂ Describes (ovtChildren r true) ds' :=
  roundtrip_decode_encode insertionStdSort (romInfoOf [smallNode]) (romInfoOf []) true
    [smallDescription] (List.Forall₂.cons (by decide) List.Forall₂.nil) (by decide) (by decide)
    (by decide)

/-! ## C2: the written array is sorted -/

/-- C2: for every container node, duplicate ids included, the record array
that `generateOvt` writes is sorted ascending by `overlayID`: of any two
records of the file, the earlier one has the smaller or equal id. -/
theorem generateOvt_sorted (S : StdSort) (romInfoNode : XmlNode) (isArm9 opens : Bool)
    (bytes : List Byte) (h : generateOvt S romInfoNode isArm9 opens = .ok bytes) :
    (readRecords (bytes.length / 32) bytes).Pairwise
      (fun a b => a.overlayID ≤ b.overlayID) := by
  obtain ⟨es, hread, hb⟩ := generateOvt_ok_inv S romInfoNode isArm9 opens bytes h
  rw [hb, readRecords_written _ (perm_WF S _ es hread)]
  refine (S.sorted es).imp ?_
  intro a b hab
  unfold ovtLess at hab
  omega

/-- C2 at a document with ids 7, 2, 2. -/
theorem generateOvt_sorted_witness :
    ∃ bytes, generateOvt insertionStdSort (romInfoOf duplicateIdNodes) true true = .ok bytes ∧
      (readRecords (bytes.length / 32) bytes).map (fun e => e.overlayID) = [2, 2, 7] ∧
      (readRecords (bytes.length / 32) bytes).Pairwise (fun a b => a.overlayID ≤ b.overlayID) := by
  obtain ⟨hg, _⟩ := generate_then_restore insertionStdSort (romInfoOf duplicateIdNodes)
    (romInfoOf []) true
    [⟨7, 1, 1, 1, 1, 1, 0, 1, 0⟩, ⟨2, 2, 2, 2, 2, 2, 0, 2, 1⟩, ⟨2, 3, 3, 3, 3, 3, 0, 3, 0⟩]
    (by decide) (by decide)
  exact ⟨_, hg, by decide, generateOvt_sorted insertionStdSort (romInfoOf duplicateIdNodes) true
    true _ hg⟩

/-! ## C3: files whose length is not a multiple of the record size -/

theorem readRecords_length (count : Nat) : ∀ bs : List Byte,
    (readRecords count bs).length = count := by
  induction count with
  | zero => intro bs; rfl
  | succ k ih => intro bs; simp [readRecords, ih]

theorem readRecords_take (count : Nat) : ∀ bs : List Byte,
    readRecords count (bs.take (32 * count)) = readRecords count bs := by
  induction count with
  | zero => intro bs; rfl
  | succ k ih =>
    intro bs
    simp only [readRecords]
    have e : 32 * (k + 1) = 32 + 32 * k := by ring
    have e2 : 32 + 32 * k - 32 = 32 * k := by omega
    rw [e, List.take_take, List.drop_take, Nat.min_eq_left (by omega), e2, ih]

/-- C3, as stated, fails: on a 50-byte file `restoreOvt` returns `true`
and leaves one node in the container, decoded from the first 32 bytes; the
trailing 18 bytes are dropped. -/
theorem C3_counterexample :
    fiftyBytes.length = 50 ∧ fiftyBytes.length % 32 ≠ 0 ∧
    ∃ r, restoreOvt (romInfoOf []) true (some fiftyBytes) true = .ok r ∧
      ovtChildren r true = [entryNodeOf OvtEntry.zero] := by
  refine ⟨by decide, by decide, ?_⟩
  obtain ⟨r, hr, hc⟩ := restoreOvt_ok (romInfoOf []) true fiftyBytes (by decide)
  refine ⟨r, hr, ?_⟩
  have : readRecords (fiftyBytes.length / 32) fiftyBytes = [OvtEntry.zero] := by decide
  rw [hc, this]
  rfl

/-- C3, amended: `restoreOvt` has no size check. On every overlay-table file
that exists and opens, whatever its byte length, it returns `true` and leaves
`length / 32` (rounded down) nodes in the container, decoded from the leading
`32 * (length / 32)` bytes; the trailing bytes are ignored. -/
theorem restoreOvt_truncates (romInfoNode : XmlNode) (isArm9 : Bool) (bytes : List Byte)
    (ht : (romInfoNode.child (ovtNodeName isArm9)).isSome) :
    ∃ r, restoreOvt romInfoNode isArm9 (some bytes) true = .ok r ∧
      (ovtChildren r isArm9).length = bytes.length / 32 ∧
      ovtChildren r isArm9 =
        (readRecords (bytes.length / 32) (bytes.take (32 * (bytes.length / 32)))).map
          entryNodeOf := by
  obtain ⟨r, hr, hc⟩ := restoreOvt_ok romInfoNode isArm9 bytes ht
  refine ⟨r, hr, ?_, ?_⟩
  · rw [hc, List.length_map, readRecords_length]
  · rw [hc, readRecords_take]

/-- C3, amended, at the 50-byte file. -/
theorem restoreOvt_truncates_witness :
    ∃ r, restoreOvt (romInfoOf []) true (some fiftyBytes) true = .ok r ∧
      (ovtChildren r true).length = fiftyBytes.length / 32 ∧
      ovtChildren r true =
        (readRecords (fiftyBytes.length / 32) (fiftyBytes.take (32 * (fiftyBytes.length / 32)))).map
          entryNodeOf :=
  restoreOvt_truncates (romInfoOf []) true fiftyBytes (by decide)

/-! ## C4: flag packing -/

/-- C4: for each of the four flag sets, written as its canonical `Flag`
string in the only overlay of a container (whose numeric fields `generateOvt`
accepts), `generateOvt` stores the flag byte of the set, `restoreOvt` writes
back exactly the same canonical string, from which the same flag set is read
again; and the four sets have four distinct flag bytes. -/
theorem flag_packing_bijection (S : StdSort) (romInfoNode target : XmlNode) (isArm9 : Bool)
    (node : XmlNode) (e : OvtEntry) (c a : Bool)
    (hdoc : ovtChildren romInfoNode isArm9 = [node]) (hname : node.name = "RomOVT")
    (hflag : as_string (node.attr "Flag") = canonicalFlag c a)
    (hnum : readEntry node = .ok e)
    (ht : (target.child (ovtNodeName isArm9)).isSome) :
    (∃ bytes r out, generateOvt S romInfoNode isArm9 true = .ok bytes ∧
      (readRecords (bytes.length / 32) bytes).map (fun x => x.flag) = [flagByte c a] ∧
      restoreOvt target isArm9 (some bytes) true = .ok r ∧
      ovtChildren r isArm9 = [out] ∧
      out.attr "Flag" = some (canonicalFlag c a) ∧
      flagOfString (as_string (out.attr "Flag")) = flagByte c a) ∧
    (∀ c₁ a₁ c₂ a₂ : Bool, flagByte c₁ a₁ = flagByte c₂ a₂ → c₁ = c₂ ∧ a₁ = a₂) := by
  refine ⟨?_, by decide⟩
  have hef : e.flag = flagByte c a := by
    obtain ⟨ra, rs, bs, si, se, cc, h1, h2, h3, h4, h5, h6⟩ := readEntry_inv node e hnum
    rw [readEntry_ok node ra rs bs si se cc h1 h2 h3 h4 h5 h6] at hnum
    have he := Except.ok.inj hnum
    rw [← he, hflag, flagOfString_canonical]
    have := flagByte_lt c a
    show flagByte c a % 256 = flagByte c a
    omega
  have hread : readEntries (ovtChildren romInfoNode isArm9) = .ok [e] := by
    rw [hdoc]
    exact readEntries_cons_ok node [] e [] hname hnum rfl
  have hs : S.sort [e] = [e] := sort_of_ascending S _ (List.pairwise_singleton _ _)
  obtain ⟨hg, r, hres, hc⟩ := generate_then_restore S romInfoNode target isArm9 _ hread ht
  have hwf := perm_WF S _ _ hread
  rw [hs] at hg hres hc hwf
  refine ⟨_, r, entryNodeOf e, hg, ?_, hres, hc, ?_, ?_⟩
  · rw [readRecords_written [e] hwf, List.map_cons, List.map_nil, hef]
  · show some (flagValue e.flag) = _
    rw [hef, flagValue_flagByte]
  · show flagOfString (flagValue e.flag) = _
    rw [hef, flagValue_flagByte, flagOfString_canonical]

/-- C4 at a document whose only overlay has the flag set `Compressed`. -/
theorem flag_packing_bijection_witness :
    (∃ bytes r out, generateOvt insertionStdSort (romInfoOf [smallNode]) true true = .ok bytes ∧
      (readRecords (bytes.length / 32) bytes).map (fun x => x.flag) = [flagByte true false] ∧
      restoreOvt (romInfoOf []) true (some bytes) true = .ok r ∧
      ovtChildren r true = [out] ∧
      out.attr "Flag" = some (canonicalFlag true false) ∧
      flagOfString (as_string (out.attr "Flag")) = flagByte true false) ∧
    (∀ c₁ a₁ c₂ a₂ : Bool, flagByte c₁ a₁ = flagByte c₂ a₂ → c₁ = c₂ ∧ a₁ = a₂) :=
  flag_packing_bijection insertionStdSort (romInfoOf [smallNode]) (romInfoOf []) true smallNode
    (recordOf smallDescription) true false rfl rfl (by decide) (by decide) (by decide)

/-! ## C5: numeric fields are read as `int` -/

/-- C5, as stated, fails: `2 ^ 31` is an unsigned 32-bit value, and on a
node whose `RamAddress` holds its decimal text the loop body of `generateOvt`
throws `std::out_of_range`, so no record is written. -/
theorem C5_counterexample :
    (2147483648 : Nat) < 4294967296 ∧
    largeAddressNode.child_value "RamAddress" = to_string 2147483648 ∧
    readEntry largeAddressNode = .error .out_of_range ∧
    generateOvt insertionStdSort (romInfoOf [largeAddressNode]) true true =
      .error .out_of_range := by
  decide

/-- C5, amended: for values below `2 ^ 31`, when the `Id` attribute and the
fields `RamAddress`, `RamSize`, `BssSize`, `SinitInit`, `SinitInitEnd` of a
node hold their decimal text (and `Compressed` holds text that `std::stoi`
accepts), the loop body of `generateOvt` succeeds and stores exactly these
values in `overlayID`, `ramAddress`, `ramSize`, `bssSize`, `sinitStart`,
`sinitEnd`; and when the six header fields hold the decimal text of values
below `2 ^ 31`, the header block of `main` stores exactly these values. -/
theorem forward_parse_int_range (node romInfoNode : XmlNode) (id ra rs bs si se : Nat) (c : Int)
    (hdr : NDSHeader)
    (hid : id < 2147483648) (hra : ra < 2147483648) (hrs : rs < 2147483648)
    (hbs : bs < 2147483648) (hsi : si < 2147483648) (hse : se < 2147483648)
    (h0 : node.attr "Id" = some (to_string id))
    (h1 : node.child_value "RamAddress" = to_string ra)
    (h2 : node.child_value "RamSize" = to_string rs)
    (h3 : node.child_value "BssSize" = to_string bs)
    (h4 : node.child_value "SinitInit" = to_string si)
    (h5 : node.child_value "SinitInitEnd" = to_string se)
    (h6 : stoi (node.child_value "Compressed") = .ok c)
    (hh : HeaderHolds romInfoNode hdr) (hfit : hdr.FitsInt) :
    (∃ e, readEntry node = .ok e ∧ e.overlayID = id ∧ e.ramAddress = ra ∧ e.ramSize = rs ∧
      e.bssSize = bs ∧ e.sinitStart = si ∧ e.sinitEnd = se) ∧
    readHeader romInfoNode = .ok hdr := by
  constructor
  · refine ⟨_, readEntry_ok node ra rs bs si se c (by rw [h1]; exact stoi_to_string _ hra)
      (by rw [h2]; exact stoi_to_string _ hrs) (by rw [h3]; exact stoi_to_string _ hbs)
      (by rw [h4]; exact stoi_to_string _ hsi) (by rw [h5]; exact stoi_to_string _ hse) h6,
      ?_, ?_, ?_, ?_, ?_, ?_⟩
    · show toU32 (as_int (node.attr "Id")) = id
      rw [h0, as_int_to_string id hid]
    all_goals exact toU32_natCast _ (by omega)
  · obtain ⟨g1, g2, g3, g4, g5, g6⟩ := hh
    obtain ⟨f1, f2, f3, f4, f5, f6⟩ := hfit
    unfold readHeader
    simp only [g1, g2, g3, g4, g5, g6, stoi_to_string _ f1, stoi_to_string _ f2,
      stoi_to_string _ f3, stoi_to_string _ f4, stoi_to_string _ f5, stoi_to_string _ f6, bind,
      Except.bind, pure, Except.pure]
    rw [toU32_natCast _ (by omega), toU32_natCast _ (by omega), toU32_natCast _ (by omega),
      toU32_natCast _ (by omega), toU32_natCast _ (by omega), toU32_natCast _ (by omega)]

/-- C5, amended, at `exampleDocument`. -/
theorem forward_parse_int_range_witness :
    (∃ e, readEntry smallNode = .ok e ∧ e.overlayID = 3 ∧ e.ramAddress = 33554432 ∧
      e.ramSize = 4096 ∧ e.bssSize = 256 ∧ e.sinitStart = 33554432 ∧ e.sinitEnd = 33554436) ∧
    readHeader exampleDocument = .ok exampleHeader :=
  forward_parse_int_range smallNode exampleDocument 3 33554432 4096 256 33554432 33554436 1024
    exampleHeader (by decide) (by decide) (by decide) (by decide) (by decide) (by decide)
    (by decide) (by decide) (by decide) (by decide) (by decide) (by decide) (by decide)
    (by decide) (by decide)

/-! ## C6: round trip, encode after decode -/

theorem readEntry_entryNodeOf (e : OvtEntry) (hwf : e.WF) (hfile : e.fileID = 0)
    (hflag : e.flag < 4) (hfit : e.FitsInt) : readEntry (entryNodeOf e) = .ok e := by
  obtain ⟨_, _, _, _, _, _, _, hc, _⟩ := hwf
  obtain ⟨f0, f1, f2, f3, f4, f5⟩ := hfit
  have h := readEntry_ok (entryNodeOf e) e.ramAddress e.ramSize e.bssSize e.sinitStart e.sinitEnd
    e.compressed (stoi_to_string _ f1) (stoi_to_string _ f2) (stoi_to_string _ f3)
    (stoi_to_string _ f4) (stoi_to_string _ f5) (stoi_to_string _ (by omega))
  rw [h]
  have hid : toU32 (as_int ((entryNodeOf e).attr "Id")) = e.overlayID :=
    as_int_to_string e.overlayID f0
  have hfl : flagOfString (as_string ((entryNodeOf e).attr "Flag")) % 256 = e.flag := by
    show flagOfString (flagValue e.flag) % 256 = e.flag
    rw [flagOfString_flagValue e.flag hflag]
    omega
  rw [hid, hfl, toU32_natCast _ (by omega), toU32_natCast _ (by omega),
    toU32_natCast _ (by omega), toU32_natCast _ (by omega), toU32_natCast _ (by omega),
    toU24_natCast _ hc, ← hfile]

theorem readEntries_entryNodeOf (es : List OvtEntry)
    (h : ∀ e ∈ es, e.WF ∧ e.fileID = 0 ∧ e.flag < 4 ∧ e.FitsInt) :
    readEntries (es.map entryNodeOf) = .ok es := by
  induction es with
  | nil => rfl
  | cons e es ih =>
    obtain ⟨h1, h2, h3, h4⟩ := h e (List.mem_cons_self e es)
    exact readEntries_cons_ok (entryNodeOf e) _ e es rfl (readEntry_entryNodeOf e h1 h2 h3 h4)
      (ih (fun x hx => h x (List.mem_cons_of_mem e hx)))

/-- C6, as stated, fails: the one-record array `[largeAddressEntry]` is
strictly ascending, has `fileID = 0` and flag byte 0; `restoreOvt` decodes it,
and `generateOvt` on the resulting container throws `std::out_of_range`
instead of reproducing the array. -/
theorem C6_counterexample :
    largeAddressEntry.WF ∧ largeAddressEntry.fileID = 0 ∧ largeAddressEntry.flag = 0 ∧
    [largeAddressEntry].Pairwise (fun a b => a.overlayID < b.overlayID) ∧
    ∃ r, restoreOvt (romInfoOf []) true (some (writeEntries [largeAddressEntry])) true = .ok r ∧
      generateOvt insertionStdSort r true true = .error .out_of_range := by
  refine ⟨by decide, rfl, rfl, List.pairwise_singleton _ _, ?_⟩
  obtain ⟨r, hr, hc⟩ := restoreOvt_ok (romInfoOf []) true (writeEntries [largeAddressEntry])
    (by decide)
  refine ⟨r, hr, ?_⟩
  have hrec : readRecords ((writeEntries [largeAddressEntry]).length / 32)
      (writeEntries [largeAddressEntry]) = [largeAddressEntry] := by decide
  rw [generateOvt_eq, hc, hrec]
  have : readEntries ([largeAddressEntry].map entryNodeOf) = .error .out_of_range := by decide
  rw [this]

/-- C6, amended: for every array of overlay-table records that is strictly
ascending by `overlayID`, has `fileID = 0` and a flag byte in `{0, 1, 2, 3}`
in every record, and whose `overlayID` and five 32-bit fields are below
`2 ^ 31`, `restoreOvt` on a container followed by `generateOvt` on the
resulting container reproduces the same record array byte for byte. -/
theorem roundtrip_encode_decode (S : StdSort) (target : XmlNode) (isArm9 : Bool)
    (es : List OvtEntry)
    (hrec : ∀ e ∈ es, e.WF ∧ e.fileID = 0 ∧ e.flag < 4 ∧ e.FitsInt)
    (hasc : es.Pairwise (fun a b => a.overlayID < b.overlayID))
    (ht : (target.child (ovtNodeName isArm9)).isSome) :
    ∃ r, restoreOvt target isArm9 (some (writeEntries es)) true = .ok r ∧
      generateOvt S r isArm9 true = .ok (writeEntries es) := by
  obtain ⟨r, hr, hc⟩ := restoreOvt_ok target isArm9 (writeEntries es) ht
  refine ⟨r, hr, ?_⟩
  rw [readRecords_written es (fun e he => (hrec e he).1)] at hc
  rw [generateOvt_eq, hc, readEntries_entryNodeOf es hrec]
  simp only [if_true]
  rw [sort_of_ascending S es hasc]

/-- C6, amended, at an array of two records. -/
theorem roundtrip_encode_decode_witness :
    ∃ r, restoreOvt (romInfoOf []) true
        (some (writeEntries [⟨2, 33554432, 64, 8, 0, 4, 0, 32, 1⟩,
          ⟨5, 33558528, 128, 0, 0, 0, 0, 0, 2⟩])) true = .ok r ∧
      generateOvt insertionStdSort r true true =
        .ok (writeEntries [⟨2, 33554432, 64, 8, 0, 4, 0, 32, 1⟩,
          ⟨5, 33558528, 128, 0, 0, 0, 0, 0, 2⟩]) :=
  roundtrip_encode_decode insertionStdSort (romInfoOf []) true
    [⟨2, 33554432, 64, 8, 0, 4, 0, 32, 1⟩, ⟨5, 33558528, 128, 0, 0, 0, 0, 0, 2⟩]
    (by decide) (by decide) (by decide)

/-! ## C7: the output does not depend on the document order -/

/-- C7, as stated, fails: the two descriptions have distinct unsigned 32-bit
ids, but `as_int` clamps both ids to `INT_MAX`, the two records compare equal
under the comparator of `std::sort`, and with insertion sort the two document
orders give two different files. -/
theorem C7_counterexample :
    Describes clampedNodeA clampedDescriptionA ∧ Describes clampedNodeB clampedDescriptionB ∧
    clampedDescriptionA.IsU32 ∧ clampedDescriptionB.IsU32 ∧
    clampedDescriptionA.id ≠ clampedDescriptionB.id ∧
    (generateOvt insertionStdSort (romInfoOf [clampedNodeA, clampedNodeB]) true true).toOption.isSome
      = true ∧
    generateOvt insertionStdSort (romInfoOf [clampedNodeA, clampedNodeB]) true true ≠
      generateOvt insertionStdSort (romInfoOf [clampedNodeB, clampedNodeA]) true true := by
  decide

/-- C7, amended: for any two lists of overlay descriptions with pairwise
distinct ids below `2 ^ 31` that are permutations of each other, held in two
containers, `generateOvt` has the same outcome on both: the identical byte
sequence, or the same failure, whatever `std::sort` does with equal keys. -/
theorem generateOvt_order_independent (S : StdSort) (rom₁ rom₂ : XmlNode) (isArm9 opens : Bool)
    (ds₁ ds₂ : List OverlayDescription)
    (h1 : List.Forall₂ Describes (ovtChildren rom₁ isArm9) ds₁)
    (h2 : List.Forall₂ Describes (ovtChildren rom₂ isArm9) ds₂)
    (hp : ds₁.Perm ds₂)
    (hid : (ds₁.map (fun d => d.id)).Nodup)
    (hlt : ∀ d ∈ ds₁, d.id < 2147483648) :
    generateOvt S rom₁ isArm9 opens = generateOvt S rom₂ isArm9 opens := by
  rw [generateOvt_eq, generateOvt_eq]
  by_cases hall : ∀ d ∈ ds₁, d.FieldsFitInt
  · have r1 := readEntries_describes _ ds₁ h1 (fun d hd => ⟨hlt d hd, hall d hd⟩)
    have r2 := readEntries_describes _ ds₂ h2
      (fun d hd => ⟨hlt d (hp.mem_iff.mpr hd), hall d (hp.mem_iff.mpr hd)⟩)
    rw [r1, r2]
    have hs : S.sort (ds₁.map recordOf) = S.sort (ds₂.map recordOf) := by
      refine sort_perm_eq S _ _ (hp.map recordOf) ?_
      rw [List.map_map]
      exact hid
    simp only [hs]
  · have hex : ∃ d ∈ ds₁, ¬ d.FieldsFitInt := by
      by_contra hc
      apply hall
      intro d hd
      by_contra hn
      exact hc ⟨d, hd, hn⟩
    have hex2 : ∃ d ∈ ds₂, ¬ d.FieldsFitInt := by
      obtain ⟨d, hd, hn⟩ := hex
      exact ⟨d, hp.mem_iff.mp hd, hn⟩
    rw [readEntries_describes_fail _ ds₁ h1 hex, readEntries_describes_fail _ ds₂ h2 hex2]

/-- C7, amended, at two documents that hold the same two overlays in
opposite orders. -/
theorem generateOvt_order_independent_witness :
    generateOvt insertionStdSort (romInfoOf [smallNode, otherNode]) true true =
      generateOvt insertionStdSort (romInfoOf [otherNode, smallNode]) true true :=
  generateOvt_order_independent insertionStdSort (romInfoOf [smallNode, otherNode])
    (romInfoOf [otherNode, smallNode]) true true [smallDescription, otherDescription]
    [otherDescription, smallDescription]
    (List.Forall₂.cons (by decide) (List.Forall₂.cons (by decide) List.Forall₂.nil))
    (List.Forall₂.cons (by decide) (List.Forall₂.cons (by decide) List.Forall₂.nil))
    (List.Perm.swap _ _ _) (by decide) (by decide)

/-! ## C8: which texts make `generateOvt` fail -/

theorem stoi_of_noLeadingNumber (text : String) (h : NoLeadingNumber text) :
    stoi text = .error .invalid_argument := by
  unfold NoLeadingNumber at h
  unfold stoi
  simp only at h ⊢
  split
  · rfl
  · rename_i c cs heq
    rw [heq] at h
    simp only [List.head?_cons, Option.map_some', Option.getD_some] at h
    simp [h]

theorem readEntry_field_error (node : XmlNode) (field : String) (f : Failure)
    (hfield : field ∈ numericFields) (h : stoi (node.child_value field) = .error f) :
    ∃ g, readEntry node = .error g := by
  cases hr : readEntry node with
  | error g => exact ⟨g, rfl⟩
  | ok e =>
    obtain ⟨ra, rs, bs, si, se, c, h1, h2, h3, h4, h5, h6⟩ := readEntry_inv node e hr
    simp only [numericFields, List.mem_cons, List.mem_singleton, List.not_mem_nil, or_false]
      at hfield
    rcases hfield with hf | hf | hf | hf | hf | hf <;> rw [hf] at h
    · rw [h1] at h; cases h
    · rw [h2] at h; cases h
    · rw [h3] at h; cases h
    · rw [h4] at h; cases h
    · rw [h5] at h; cases h
    · rw [h6] at h; cases h

theorem readEntry_error_kind (node : XmlNode) (f : Failure) (h : readEntry node = .error f) :
    f = .invalid_argument ∨ f = .out_of_range := by
  unfold readEntry at h
  cases h1 : stoi (node.child_value "RamAddress") with
  | error g =>
    simp only [h1, bind, Except.bind, Except.error.injEq] at h
    exact h ▸ stoi_error_kind _ g h1
  | ok ra =>
    cases h2 : stoi (node.child_value "RamSize") with
    | error g =>
      simp only [h1, h2, bind, Except.bind, Except.error.injEq] at h
      exact h ▸ stoi_error_kind _ g h2
    | ok rs =>
      cases h3 : stoi (node.child_value "BssSize") with
      | error g =>
        simp only [h1, h2, h3, bind, Except.bind, Except.error.injEq] at h
        exact h ▸ stoi_error_kind _ g h3
      | ok bs =>
        cases h4 : stoi (node.child_value "SinitInit") with
        | error g =>
          simp only [h1, h2, h3, h4, bind, Except.bind, Except.error.injEq] at h
          exact h ▸ stoi_error_kind _ g h4
        | ok si =>
          cases h5 : stoi (node.child_value "SinitInitEnd") with
          | error g =>
            simp only [h1, h2, h3, h4, h5, bind, Except.bind, Except.error.injEq] at h
            exact h ▸ stoi_error_kind _ g h5
          | ok se =>
            cases h6 : stoi (node.child_value "Compressed") with
            | error g =>
              simp only [h1, h2, h3, h4, h5, h6, bind, Except.bind, Except.error.injEq] at h
              exact h ▸ stoi_error_kind _ g h6
            | ok c => simp [h1, h2, h3, h4, h5, h6, bind, Except.bind, pure, Except.pure] at h

/-- A `RomOVT` node on which the loop body throws makes the whole loop throw
one of the two exceptions of `std::stoi`. -/
theorem readEntries_error (nodes : List XmlNode) (node : XmlNode) (g : Failure)
    (hmem : node ∈ nodes) (hname : node.name = "RomOVT") (h : readEntry node = .error g) :
    ∃ f, readEntries nodes = .error f ∧ (f = .invalid_argument ∨ f = .out_of_range) := by
  induction nodes with
  | nil => simp at hmem
  | cons n rest ih =>
    by_cases hn : n.name = "RomOVT"
    · cases hr : readEntry n with
      | error f =>
        exact ⟨f, by simp [readEntries, hn, hr, bind, Except.bind], readEntry_error_kind n f hr⟩
      | ok e =>
        have hrest : node ∈ rest := by
          rcases List.mem_cons.mp hmem with hm | hm
          · rw [hm, hr] at h
            cases h
          · exact hm
        obtain ⟨f, hf, hk⟩ := ih hrest
        exact ⟨f, by simp [readEntries, hn, hr, hf, bind, Except.bind], hk⟩
    · have hrest : node ∈ rest := by
        rcases List.mem_cons.mp hmem with hm | hm
        · rw [hm] at hname
          exact absurd hname hn
        · exact hm
      obtain ⟨f, hf, hk⟩ := ih hrest
      exact ⟨f, by simp [readEntries, hn, hf], hk⟩

/-- C8, as stated, fails: on `lenientNode` `generateOvt` succeeds. The id
`abc` becomes 0, `12abc` becomes 12, the leading blank and the plus sign are
accepted, `-1` becomes `2 ^ 32 - 1`, and `0x10` becomes 0. -/
theorem C8_counterexample :
    generateOvt insertionStdSort (romInfoOf [lenientNode]) true true =
      .ok (writeEntries [⟨0, 12, 7, 3, 4294967295, 0, 0, 5, 0⟩]) := by
  decide

/-- C8, amended: for every container with a `RomOVT` node in which one of the
six numeric child values has no digit after the optional leading white space
and sign (empty or missing text in particular), or is the decimal numeral of a
value of `2 ^ 31` or more (`2 ^ 32` or more in particular), `generateOvt`
fails with `std::invalid_argument` or `std::out_of_range` and writes no record
array. -/
theorem generateOvt_parse_failure (S : StdSort) (romInfoNode : XmlNode) (isArm9 opens : Bool)
    (node : XmlNode) (field : String)
    (hmem : node ∈ ovtChildren romInfoNode isArm9) (hname : node.name = "RomOVT")
    (hfield : field ∈ numericFields)
    (hbad : NoLeadingNumber (node.child_value field) ∨
      ∃ v, 2147483648 ≤ v ∧ node.child_value field = to_string v) :
    ∃ f, generateOvt S romInfoNode isArm9 opens = .error f ∧
      (f = .invalid_argument ∨ f = .out_of_range) := by
  have hstoi : ∃ g, stoi (node.child_value field) = .error g := by
    rcases hbad with hb | ⟨v, hv, hb⟩
    · exact ⟨_, stoi_of_noLeadingNumber _ hb⟩
    · exact ⟨_, by rw [hb]; exact stoi_to_string_large v hv⟩
  obtain ⟨g, hg⟩ := hstoi
  obtain ⟨g2, hg2⟩ := readEntry_field_error node field g hfield hg
  obtain ⟨f, hf, hk⟩ := readEntries_error _ node g2 hmem hname hg2
  exact ⟨f, by rw [generateOvt_eq, hf], hk⟩

/-- C8, amended, at a document whose second overlay has an empty `BssSize`. -/
theorem generateOvt_parse_failure_witness :
    ∃ f, generateOvt insertionStdSort (romInfoOf [smallNode, emptyFieldNode]) true true =
        .error f ∧ (f = .invalid_argument ∨ f = .out_of_range) :=
  generateOvt_parse_failure insertionStdSort (romInfoOf [smallNode, emptyFieldNode]) true true
    emptyFieldNode "BssSize" (List.mem_cons_of_mem _ (List.mem_cons_self _ _)) rfl (by decide)
    (Or.inl (by decide))

/-! ## C9: the worked example -/

/-- C9, as stated, fails in its last part: on the three overlays 7, 2, 5
with the flag sets none, `Compressed`, both, the decoded entries have the ids
2, 5, 7 and each keeps its own flags, so the `Flag` strings read
`Compressed`, `Compressed AuthenticationCode`, empty; not empty, `Compressed`,
`Compressed AuthenticationCode`. -/
theorem C9_counterexample :
    ∃ bytes r, generateOvt insertionStdSort (romInfoOf workedExampleNodes) true true = .ok bytes ∧
      bytes.length = 96 ∧
      restoreOvt (romInfoOf workedExampleNodes) true (some bytes) true = .ok r ∧
      (ovtChildren r true).map (fun n => n.attr "Id") = [some "2", some "5", some "7"] ∧
      (ovtChildren r true).map (fun n => as_string (n.attr "Flag")) =
        ["Compressed", "Compressed AuthenticationCode", ""] ∧
      (ovtChildren r true).map (fun n => as_string (n.attr "Flag")) ≠
        ["", "Compressed", "Compressed AuthenticationCode"] := by
  obtain ⟨hg, r, hr, hc⟩ := generate_then_restore insertionStdSort (romInfoOf workedExampleNodes)
    (romInfoOf workedExampleNodes) true (workedExampleDescriptions.map recordOf) (by decide)
    (by decide)
  have hs : insertionStdSort.sort (workedExampleDescriptions.map recordOf) =
      [⟨2, 0, 0, 0, 0, 0, 0, 0, 1⟩, ⟨5, 0, 0, 0, 0, 0, 0, 0, 3⟩, ⟨7, 0, 0, 0, 0, 0, 0, 0, 0⟩] := by
    decide
  rw [hs] at hg hr hc
  refine ⟨_, r, hg, by decide, hr, ?_, ?_, ?_⟩
  · rw [hc]
    decide
  · rw [hc]
    decide
  · rw [hc]
    decide

/-- C9, amended: for a container holding three overlays with ids 7, 2, 5
whose flag sets are, in that order, none, `Compressed`, and both (numeric
fields inside the domain of the round trip), `generateOvt` produces a 96-byte
array whose records have the ids 2, 5, 7 in that order, and `restoreOvt` on
that array produces three document entries with ids 2, 5, 7 in that order
whose `Flag` strings are, in that order, `Compressed`,
`Compressed AuthenticationCode`, and the empty string. -/
theorem worked_example (S : StdSort) (romInfoNode target : XmlNode) (isArm9 : Bool)
    (n7 n2 n5 : XmlNode) (d7 d2 d5 : OverlayDescription)
    (hdoc : ovtChildren romInfoNode isArm9 = [n7, n2, n5])
    (h7 : Describes n7 d7) (h2 : Describes n2 d2) (h5 : Describes n5 d5)
    (i7 : d7.id = 7) (i2 : d2.id = 2) (i5 : d5.id = 5)
    (f7 : d7.compressedFlag = false ∧ d7.authFlag = false)
    (f2 : d2.compressedFlag = true ∧ d2.authFlag = false)
    (f5 : d5.compressedFlag = true ∧ d5.authFlag = true)
    (r7 : d7.InRange) (r2 : d2.InRange) (r5 : d5.InRange)
    (ht : (target.child (ovtNodeName isArm9)).isSome) :
    ∃ bytes r, generateOvt S romInfoNode isArm9 true = .ok bytes ∧
      bytes.length = 96 ∧
      (readRecords (bytes.length / 32) bytes).map (fun e => e.overlayID) = [2, 5, 7] ∧
      restoreOvt target isArm9 (some bytes) true = .ok r ∧
      (ovtChildren r isArm9).map (fun n => n.attr "Id") = [some "2", some "5", some "7"] ∧
      (ovtChildren r isArm9).map (fun n => n.attr "Flag") =
        [some "Compressed", some "Compressed AuthenticationCode", some ""] := by
  have fit : ∀ d : OverlayDescription, d.InRange → d.id < 2147483648 ∧ d.FieldsFitInt := by
    intro d hd
    obtain ⟨h0, h1, h2, h3, h4, h5, h6⟩ := hd
    exact ⟨h0, h1, h2, h3, h4, h5, by omega⟩
  have hread : readEntries (ovtChildren romInfoNode isArm9) =
      .ok ([d7, d2, d5].map recordOf) := by
    rw [hdoc]
    refine readEntries_describes _ _
      (List.Forall₂.cons h7 (List.Forall₂.cons h2 (List.Forall₂.cons h5 List.Forall₂.nil))) ?_
    intro d hd
    simp only [List.mem_cons, List.mem_singleton, List.not_mem_nil, or_false] at hd
    rcases hd with hd | hd | hd <;> rw [hd]
    · exact fit d7 r7
    · exact fit d2 r2
    · exact fit d5 r5
  have hs : S.sort ([d7, d2, d5].map recordOf) = [recordOf d2, recordOf d5, recordOf d7] := by
    refine sorted_perm_unique _ _ ?_ (S.sorted _) ?_ ?_
    · refine (S.perm _).trans ?_
      show List.Perm [recordOf d7, recordOf d2, recordOf d5] [recordOf d2, recordOf d5, recordOf d7]
      exact @List.perm_append_comm _ [recordOf d7] [recordOf d2, recordOf d5]
    · simp [ovtLess, recordOf, i7, i2, i5]
    · refine ((S.perm _).map _).nodup_iff.mpr ?_
      simp [recordOf, i7, i2, i5]
  obtain ⟨hg, r, hr, hc⟩ := generate_then_restore S romInfoNode target isArm9 _ hread ht
  have hwf := perm_WF S _ _ hread
  rw [hs] at hg hr hc hwf
  refine ⟨_, r, hg, ?_, ?_, hr, ?_, ?_⟩
  · rw [writeEntries_length]
    rfl
  · rw [readRecords_written _ hwf]
    simp [recordOf, i7, i2, i5]
  · rw [hc]
    show [some (to_string d2.id), some (to_string d5.id), some (to_string d7.id)] = _
    rw [i2, i5, i7]
    decide
  · rw [hc]
    show [some (flagValue (flagByte d2.compressedFlag d2.authFlag)),
      some (flagValue (flagByte d5.compressedFlag d5.authFlag)),
      some (flagValue (flagByte d7.compressedFlag d7.authFlag))] = _
    rw [f2.1, f2.2, f5.1, f5.2, f7.1, f7.2]
    decide

/-- C9, amended, at the document `workedExampleNodes`. -/
theorem worked_example_witness :
    ∃ bytes r, generateOvt insertionStdSort (romInfoOf workedExampleNodes) true true = .ok bytes ∧
      bytes.length = 96 ∧
      (readRecords (bytes.length / 32) bytes).map (fun e => e.overlayID) = [2, 5, 7] ∧
      restoreOvt (romInfoOf []) true (some bytes) true = .ok r ∧
      (ovtChildren r true).map (fun n => n.attr "Id") = [some "2", some "5", some "7"] ∧
      (ovtChildren r true).map (fun n => n.attr "Flag") =
        [some "Compressed", some "Compressed AuthenticationCode", some ""] :=
  worked_example insertionStdSort (romInfoOf workedExampleNodes) (romInfoOf []) true
    (romOvtNode "7" "" "0" "0" "0" "0" "0" "0")
    (romOvtNode "2" "Compressed" "0" "0" "0" "0" "0" "0")
    (romOvtNode "5" "Compressed AuthenticationCode" "0" "0" "0" "0" "0" "0")
    ⟨7, false, false, 0, 0, 0, 0, 0, 0⟩ ⟨2, true, false, 0, 0, 0, 0, 0, 0⟩
    ⟨5, true, true, 0, 0, 0, 0, 0, 0⟩ rfl (by decide) (by decide) (by decide) rfl rfl rfl
    ⟨rfl, rfl⟩ ⟨rfl, rfl⟩ ⟨rfl, rfl⟩ (by decide) (by decide) (by decide) (by decide)

/-! ## C10: names of the symbolic links -/

/-- The `main_` path of `generateOvSyms` does what the naming convention says:
a regular file `main_<n>`, with `n` below `2 ^ 31` written as its decimal
numeral, gets the link `overlay9_<n>.bin` in the ARM9 directory. -/
theorem generateOvSyms_main (linkOk : Symlink → Bool) (n : Nat) (hn : n < 2147483648)
    (rest : List DirEntry)
    (hok : linkOk ⟨true, "overlay9_" ++ to_string n ++ ".bin", "main_" ++ to_string n⟩ = true) :
    generateOvSyms linkOk (⟨"main_" ++ to_string n, true⟩ :: rest) =
      (generateOvSyms linkOk rest).map
        (fun links => ⟨true, "overlay9_" ++ to_string n ++ ".bin", "main_" ++ to_string n⟩ ::
          links) := by
  have hdata : ("main_" ++ to_string n).data = "main_".data ++ Nat.toDigits 10 n := rfl
  have hstart : starts_with ("main_" ++ to_string n) "main_" = true := by
    unfold starts_with
    rw [hdata, List.isPrefixOf_iff_prefix]
    exact List.prefix_append _ _
  have hsub : substr ("main_" ++ to_string n) 5 = .ok (to_string n) := by
    unfold substr
    rw [hdata]
    have hl : ("main_".data).length = 5 := rfl
    have : ¬ ("main_".data ++ Nat.toDigits 10 n).length < 5 := by
      rw [List.length_append, hl]
      omega
    rw [if_neg this, List.drop_left' hl]
    rfl
  have hstr : to_string_int (n : Int) = to_string n := by
    unfold to_string_int
    have : ¬ ((n : Int) < 0) := by omega
    rw [if_neg this, Int.toNat_ofNat]
  generalize hres : generateOvSyms linkOk rest = res
  unfold generateOvSyms
  simp only [hstart, hsub, stoi_to_string n hn, hstr, hok, hres, bind, Except.bind, pure,
    Except.pure, Bool.not_true, Bool.false_eq_true, if_false, if_true, ne_eq, one_ne_zero,
    not_false_eq_true, beq_self_eq_true]
  cases res <;> rfl

/-- C10 at the failing input: a regular file `sub_12` gets the link
`overlay7_2.bin`, not `overlay7_12.bin`, because `substr(5)` also skips the
first digit after the four characters of `sub_`; `main_12` next to it gets
`overlay9_12.bin`, a file with neither prefix gets no link, and on `sub_7`
the function throws `std::invalid_argument`. -/
theorem generateOvSyms_sub_drops_first_digit :
    generateOvSyms (fun _ => true) [⟨"main_12", true⟩, ⟨"sub_12", true⟩, ⟨"notes", true⟩] =
      .ok [⟨true, "overlay9_12.bin", "main_12"⟩, ⟨false, "overlay7_2.bin", "sub_12"⟩] ∧
    generateOvSyms (fun _ => true) [⟨"sub_7", true⟩] = .error .invalid_argument := by
  decide

/-! ## The size of the record vector -/

theorem isNamed_iff_name (node : XmlNode) :
    XmlNode.isNamed "RomOVT" node = true ↔ node.name = "RomOVT" := by
  cases node with
  | element n as cs => simp [XmlNode.isNamed, XmlNode.name]
  | pcdata v =>
    simp only [XmlNode.isNamed, XmlNode.name, Bool.false_eq_true, false_iff]
    decide

/-- The loop of `generateOvt` fills exactly the `nodeCount` records the vector
was created with. -/
theorem readEntries_length (nodes : List XmlNode) : ∀ es : List OvtEntry,
    readEntries nodes = .ok es → es.length = (nodes.filter (XmlNode.isNamed "RomOVT")).length := by
  induction nodes with
  | nil =>
    intro es h
    rw [← Except.ok.inj h]
    rfl
  | cons node rest ih =>
    intro es h
    unfold readEntries at h
    by_cases hn : node.name = "RomOVT"
    · have hf : XmlNode.isNamed "RomOVT" node = true := (isNamed_iff_name node).mpr hn
      simp only [hn, ne_eq, not_true_eq_false, if_false] at h
      cases h1 : readEntry node with
      | error f => simp [h1, bind, Except.bind] at h
      | ok e1 =>
        cases h2 : readEntries rest with
        | error f => simp [h1, h2, bind, Except.bind] at h
        | ok es1 =>
          simp only [h1, h2, bind, Except.bind, pure, Except.pure, Except.ok.injEq] at h
          rw [← h, List.filter_cons_of_pos hf, List.length_cons, List.length_cons, ih es1 h2]
    · have hf : ¬ (XmlNode.isNamed "RomOVT" node = true) := fun hc =>
        hn ((isNamed_iff_name node).mp hc)
      simp only [hn, ne_eq, not_false_eq_true, if_true] at h
      rw [List.filter_cons_of_neg hf]
      exact ih es h

/-! ## C11: decoding replaces the container's children, in array order -/

theorem and_two_eq (f : Nat) : f &&& 2 = (f % 4) &&& 2 := by
  have h3 : f &&& 3 = f % 4 := Nat.and_pow_two_sub_one_eq_mod f 2
  have h32 : (3 : Nat) &&& 2 = 2 := by decide
  calc f &&& 2 = f &&& (3 &&& 2) := by rw [h32]
    _ = (f &&& 3) &&& 2 := (Nat.and_assoc f 3 2).symm
    _ = (f % 4) &&& 2 := by rw [h3]

/-- The `Flag` text written by `restoreOvt` is the canonical string of bit 0
and bit 1 of the flag byte. -/
theorem flagValue_eq_canonical (f : Nat) :
    flagValue f = canonicalFlag (decide (f % 2 = 1)) (decide (f / 2 % 2 = 1)) := by
  have h1 : f &&& OVERLAY_FLAG_COMP = f % 2 := Nat.and_one_is_mod f
  have h2 : f &&& OVERLAY_FLAG_AUTH = (f % 4) &&& 2 := and_two_eq f
  have hm : f % 4 < 4 := Nat.mod_lt f (by decide)
  have e1 : f % 2 = f % 4 % 2 := by omega
  have e2 : f / 2 % 2 = f % 4 / 2 % 2 := by omega
  unfold flagValue
  rw [h1, h2, e1, e2]
  generalize f % 4 = m at hm
  interval_cases m <;> decide

theorem entryNodeOf_eq_describedNode (e : OvtEntry) : entryNodeOf e = describedNode e := by
  unfold entryNodeOf describedNode addField
  rw [flagValue_eq_canonical]

theorem restoreOvt_congr (target : XmlNode) (isArm9 opens : Bool) (b₁ b₂ : List Byte)
    (h : (readRecords (b₁.length / 32) b₁).map entryNodeOf =
      (readRecords (b₂.length / 32) b₂).map entryNodeOf) :
    restoreOvt target isArm9 (some b₁) opens = restoreOvt target isArm9 (some b₂) opens := by
  unfold restoreOvt
  simp only [sizeofOvtEntry, h]

/-- C11: for every prior state of the container of a target (here two
documents `t₁`, `t₂` with arbitrary content) and every overlay-table file,
after `restoreOvt` the children of the container are exactly one node per
record of the file, the i-th node built from the i-th record (`Id`, the
canonical `Flag` string, then the six values as decimal text in the order of
the forward transform); nothing of the prior children remains, the result is
the same for both documents, and the ids of the nodes are ascending whenever
the array is sorted ascending. -/
theorem restoreOvt_full_replace (t₁ t₂ : XmlNode) (isArm9 : Bool) (bytes : List Byte)
    (h₁ : (t₁.child (ovtNodeName isArm9)).isSome)
    (h₂ : (t₂.child (ovtNodeName isArm9)).isSome) :
    ∃ r₁ r₂, restoreOvt t₁ isArm9 (some bytes) true = .ok r₁ ∧
      restoreOvt t₂ isArm9 (some bytes) true = .ok r₂ ∧
      ovtChildren r₁ isArm9 = (readRecords (bytes.length / 32) bytes).map describedNode ∧
      ovtChildren r₂ isArm9 = ovtChildren r₁ isArm9 ∧
      (ovtChildren r₁ isArm9).length = bytes.length / 32 ∧
      ((readRecords (bytes.length / 32) bytes).Pairwise (fun a b => a.overlayID ≤ b.overlayID) →
        ∃ ids : List Nat, ids.Pairwise (fun a b => a ≤ b) ∧
          (ovtChildren r₁ isArm9).map (fun n => n.attr "Id") =
            ids.map (fun i => some (to_string i))) := by
  obtain ⟨r₁, hr₁, hc₁⟩ := restoreOvt_ok t₁ isArm9 bytes h₁
  obtain ⟨r₂, hr₂, hc₂⟩ := restoreOvt_ok t₂ isArm9 bytes h₂
  have hmap : (readRecords (bytes.length / 32) bytes).map entryNodeOf =
      (readRecords (bytes.length / 32) bytes).map describedNode :=
    List.map_congr_left (fun e _ => entryNodeOf_eq_describedNode e)
  refine ⟨r₁, r₂, hr₁, hr₂, by rw [hc₁, hmap], by rw [hc₂, hc₁], ?_, ?_⟩
  · rw [hc₁, List.length_map, readRecords_length]
  · intro hs
    refine ⟨(readRecords (bytes.length / 32) bytes).map (fun e => e.overlayID), ?_, ?_⟩
    · rw [List.pairwise_map]
      exact hs
    · rw [hc₁, List.map_map, List.map_map]
      rfl

/-- C11 at a container that already holds other children, decoded from a file
of two records. -/
theorem restoreOvt_full_replace_witness :
    ∃ r₁ r₂, restoreOvt populatedDocument true (some (writeEntries twoRecords)) true = .ok r₁ ∧
      restoreOvt (romInfoOf []) true (some (writeEntries twoRecords)) true = .ok r₂ ∧
      ovtChildren r₁ true =
        (readRecords ((writeEntries twoRecords).length / 32) (writeEntries twoRecords)).map
          describedNode ∧
      ovtChildren r₂ true = ovtChildren r₁ true ∧
      (ovtChildren r₁ true).length = (writeEntries twoRecords).length / 32 ∧
      ((readRecords ((writeEntries twoRecords).length / 32) (writeEntries twoRecords)).Pairwise
          (fun a b => a.overlayID ≤ b.overlayID) →
        ∃ ids : List Nat, ids.Pairwise (fun a b => a ≤ b) ∧
          (ovtChildren r₁ true).map (fun n => n.attr "Id") =
            ids.map (fun i => some (to_string i))) :=
  restoreOvt_full_replace populatedDocument (romInfoOf []) true (writeEntries twoRecords)
    (by decide) (by decide)

/-! ## C14: `fileID` is not read back -/

/-- C14: for any two record arrays of equal length that agree in every field
of every record except `fileID`, `restoreOvt` gives the same result on the two
files: the decoded document does not depend on `fileID`. -/
theorem restoreOvt_ignores_fileID (target : XmlNode) (isArm9 opens : Bool)
    (es₁ es₂ : List OvtEntry)
    (hw₁ : ∀ e ∈ es₁, e.WF) (hw₂ : ∀ e ∈ es₂, e.WF)
    (hagree : List.Forall₂ agreeExceptFileID es₁ es₂) :
    restoreOvt target isArm9 (some (writeEntries es₁)) opens =
      restoreOvt target isArm9 (some (writeEntries es₂)) opens := by
  refine restoreOvt_congr target isArm9 opens _ _ ?_
  rw [readRecords_written es₁ hw₁, readRecords_written es₂ hw₂]
  clear hw₁ hw₂
  induction hagree with
  | nil => rfl
  | @cons a b l₁ l₂ hab _ ih =>
    obtain ⟨h1, h2, h3, h4, h5, h6, h7, h8⟩ := hab
    rw [List.map_cons, List.map_cons, ih]
    congr 1
    unfold entryNodeOf
    rw [h1, h2, h3, h4, h5, h6, h7, h8]

/-- C14 at two files of two records that differ in `fileID` only. -/
theorem restoreOvt_ignores_fileID_witness :
    restoreOvt populatedDocument true (some (writeEntries twoRecords)) true =
      restoreOvt populatedDocument true (some (writeEntries twoRecordsOtherFileID)) true :=
  restoreOvt_ignores_fileID populatedDocument true true twoRecords twoRecordsOtherFileID
    (by decide) (by decide)
    (List.Forall₂.cons (by decide) (List.Forall₂.cons (by decide) List.Forall₂.nil))

/-! ## The loop of `generateOvt`, node by node -/

/-- The records read by the loop are those of the `RomOVT` children, each
converted on its own, in document order. -/
theorem readEntries_forall₂ (nodes : List XmlNode) : ∀ es : List OvtEntry,
    readEntries nodes = .ok es →
      List.Forall₂ (fun node e => readEntry node = .ok e)
        (nodes.filter (XmlNode.isNamed "RomOVT")) es := by
  induction nodes with
  | nil =>
    intro es h
    rw [← Except.ok.inj h]
    exact List.Forall₂.nil
  | cons node rest ih =>
    intro es h
    unfold readEntries at h
    by_cases hn : node.name = "RomOVT"
    · have hf : XmlNode.isNamed "RomOVT" node = true := (isNamed_iff_name node).mpr hn
      simp only [hn, ne_eq, not_true_eq_false, if_false] at h
      cases h1 : readEntry node with
      | error f => simp [h1, bind, Except.bind] at h
      | ok e1 =>
        cases h2 : readEntries rest with
        | error f => simp [h1, h2, bind, Except.bind] at h
        | ok es1 =>
          simp only [h1, h2, bind, Except.bind, pure, Except.pure, Except.ok.injEq] at h
          rw [← h, List.filter_cons_of_pos hf]
          exact List.Forall₂.cons h1 (ih es1 h2)
    · have hf : ¬ (XmlNode.isNamed "RomOVT" node = true) := fun hc =>
        hn ((isNamed_iff_name node).mp hc)
      simp only [hn, ne_eq, not_false_eq_true, if_true] at h
      rw [List.filter_cons_of_neg hf]
      exact ih es h

theorem forall₂_mem_left {α β : Type} (R : α → β → Prop) (l₁ : List α) (l₂ : List β)
    (h : List.Forall₂ R l₁ l₂) (a : α) (ha : a ∈ l₁) : ∃ b ∈ l₂, R a b := by
  induction h with
  | nil => simp at ha
  | @cons x y xs ys hxy _ ih =>
    rcases List.mem_cons.mp ha with hx | hx
    · exact ⟨y, List.mem_cons_self y ys, hx ▸ hxy⟩
    · obtain ⟨b, hb, hr⟩ := ih hx
      exact ⟨b, List.mem_cons_of_mem y hb, hr⟩

/-! ## C12: layout of the flag byte -/

theorem findFrom_isSome (pat : List Char) : ∀ (s : List Char) (pos : Nat),
    (findFrom pat s pos).isSome = true ↔ pat <:+: s := by
  intro s
  induction s with
  | nil =>
    intro pos
    unfold findFrom
    cases pat with
    | nil => simp
    | cons c cs => simp
  | cons c cs ih =>
    intro pos
    unfold findFrom
    rw [List.infix_cons_iff]
    by_cases hp : pat.isPrefixOf (c :: cs) = true
    · simp only [hp, if_true, Option.isSome_some, true_iff]
      exact Or.inl (List.isPrefixOf_iff_prefix.mp hp)
    · simp only [hp, Bool.false_eq_true, if_false]
      rw [ih (pos + 1)]
      constructor
      · exact Or.inr
      · rintro (h | h)
        · exact absurd (List.isPrefixOf_iff_prefix.mpr h) hp
        · exact h

/-- The call `str.find(pat) != npos` holds exactly when `pat` occurs in `str`
as a run of consecutive characters. -/
theorem find_isSome (str pat : String) : (find str pat).isSome = true ↔ pat.data <:+: str.data :=
  findFrom_isSome pat.data str.data 0

theorem flagOfString_bits (s : String) :
    (flagOfString s % 2 = 1 ↔ "Compressed".data <:+: s.data) ∧
    (flagOfString s / 2 % 2 = 1 ↔ "AuthenticationCode".data <:+: s.data) := by
  rw [← find_isSome, ← find_isSome]
  unfold flagOfString OVERLAY_FLAG_COMP OVERLAY_FLAG_AUTH
  cases (find s "Compressed").isSome <;> cases (find s "AuthenticationCode").isSome <;> decide

/-- C12: for every `RomOVT` node of a container on which `generateOvt`
succeeds, whatever its `Flag` attribute string, the written file holds the
record of that node, and in its 8-bit flag field bit 0 is set exactly when the
string contains the literal substring `Compressed`, bit 1 exactly when it
contains `AuthenticationCode`, and bits 2 to 7 are zero; so every flag byte
of the file is in `{0, 1, 2, 3}`. -/
theorem flag_byte_layout (S : StdSort) (romInfoNode : XmlNode) (isArm9 opens : Bool)
    (bytes : List Byte) (node : XmlNode)
    (hgen : generateOvt S romInfoNode isArm9 opens = .ok bytes)
    (hmem : node ∈ ovtChildren romInfoNode isArm9) (hname : node.name = "RomOVT") :
    (∃ e ∈ readRecords (bytes.length / 32) bytes, readEntry node = .ok e ∧
      (e.flag % 2 = 1 ↔ "Compressed".data <:+: (as_string (node.attr "Flag")).data) ∧
      (e.flag / 2 % 2 = 1 ↔ "AuthenticationCode".data <:+: (as_string (node.attr "Flag")).data) ∧
      e.flag / 4 = 0) ∧
    ∀ e ∈ readRecords (bytes.length / 32) bytes, e.flag < 4 := by
  obtain ⟨es, hread, hb⟩ := generateOvt_ok_inv S romInfoNode isArm9 opens bytes hgen
  rw [hb, readRecords_written _ (perm_WF S _ es hread)]
  constructor
  · have hfil : node ∈ (ovtChildren romInfoNode isArm9).filter (XmlNode.isNamed "RomOVT") :=
      List.mem_filter.mpr ⟨hmem, (isNamed_iff_name node).mpr hname⟩
    obtain ⟨e, he, hre⟩ := forall₂_mem_left _ _ _ (readEntries_forall₂ _ es hread) node hfil
    refine ⟨e, (S.perm es).mem_iff.mpr he, hre, ?_⟩
    obtain ⟨ra, rs, bs, si, se, c, h1, h2, h3, h4, h5, h6⟩ := readEntry_inv node e hre
    rw [readEntry_ok node ra rs bs si se c h1 h2 h3 h4 h5 h6] at hre
    have hflag : e.flag = flagOfString (as_string (node.attr "Flag")) := by
      rw [← Except.ok.inj hre]
      have := flagOfString_lt (as_string (node.attr "Flag"))
      show flagOfString (as_string (node.attr "Flag")) % 256 = _
      omega
    have hlt := flagOfString_lt (as_string (node.attr "Flag"))
    have hbits := flagOfString_bits (as_string (node.attr "Flag"))
    rw [hflag]
    exact ⟨hbits.1, hbits.2, by omega⟩
  · intro e he
    exact (readEntries_WF _ es hread e ((S.perm es).mem_iff.mp he)).2.2

/-- C12 at a node whose `Flag` string holds both names inside other words. -/
theorem flag_byte_layout_witness :
    (∃ e ∈ readRecords ((writeEntries [⟨9, 0, 0, 0, 0, 0, 0, 0, 3⟩]).length / 32)
        (writeEntries [⟨9, 0, 0, 0, 0, 0, 0, 0, 3⟩]), readEntry wordyFlagNode = .ok e ∧
      (e.flag % 2 = 1 ↔ "Compressed".data <:+: (as_string (wordyFlagNode.attr "Flag")).data) ∧
      (e.flag / 2 % 2 = 1 ↔
        "AuthenticationCode".data <:+: (as_string (wordyFlagNode.attr "Flag")).data) ∧
      e.flag / 4 = 0) ∧
    ∀ e ∈ readRecords ((writeEntries [⟨9, 0, 0, 0, 0, 0, 0, 0, 3⟩]).length / 32)
      (writeEntries [⟨9, 0, 0, 0, 0, 0, 0, 0, 3⟩]), e.flag < 4 :=
  flag_byte_layout insertionStdSort (romInfoOf [wordyFlagNode]) true true
    (writeEntries [⟨9, 0, 0, 0, 0, 0, 0, 0, 3⟩]) wordyFlagNode (by decide)
    (List.mem_cons_self _ _) rfl

/-! ## C13: `fileID` is zero in every written record -/

theorem toBytes_fileID_bytes (e : OvtEntry) (h : e.fileID = 0) (k : Nat) (hk : k < 4) :
    e.toBytes.getD (24 + k) 0 = 0 := by
  unfold OvtEntry.toBytes u32Bytes
  rw [h]
  interval_cases k <;> rfl

theorem writeEntries_fileID_bytes (es : List OvtEntry) (h : ∀ e ∈ es, e.fileID = 0) :
    ∀ i k : Nat, i < es.length → k < 4 → (writeEntries es).getD (32 * i + 24 + k) 0 = 0 := by
  induction es with
  | nil => intro i k hi; simp at hi
  | cons e es ih =>
    intro i k hi hk
    have hl := toBytes_length e
    rw [writeEntries_cons]
    cases i with
    | zero =>
      rw [List.getD_append _ _ _ _ (by rw [hl]; omega)]
      have := toBytes_fileID_bytes e (h e (List.mem_cons_self e es)) k hk
      simpa using this
    | succ j =>
      rw [List.getD_append_right _ _ _ _ (by rw [hl]; omega), hl]
      have e1 : 32 * (j + 1) + 24 + k - 32 = 32 * j + 24 + k := by omega
      rw [e1]
      exact ih (fun x hx => h x (List.mem_cons_of_mem e hx)) j k
        (by simpa using hi) hk

/-- C13: for every container node on which `generateOvt` succeeds, every
record of the written array has `fileID = 0`, and the bytes 24 to 27 of each
32-byte record of the file are zero, whatever the descriptions contain. -/
theorem generateOvt_fileID_zero (S : StdSort) (romInfoNode : XmlNode) (isArm9 opens : Bool)
    (bytes : List Byte) (hgen : generateOvt S romInfoNode isArm9 opens = .ok bytes) :
    (∀ e ∈ readRecords (bytes.length / 32) bytes, e.fileID = 0) ∧
    (∀ i k : Nat, i < bytes.length / 32 → k < 4 → bytes.getD (32 * i + 24 + k) 0 = 0) := by
  obtain ⟨es, hread, hb⟩ := generateOvt_ok_inv S romInfoNode isArm9 opens bytes hgen
  have hzero : ∀ e ∈ S.sort es, e.fileID = 0 := fun e he =>
    (readEntries_WF _ es hread e ((S.perm es).mem_iff.mp he)).2.1
  rw [hb, readRecords_written _ (perm_WF S _ es hread)]
  refine ⟨hzero, ?_⟩
  intro i k hi hk
  rw [writeEntries_length] at hi
  exact writeEntries_fileID_bytes _ hzero i k (by omega) hk

/-- C13 at the document with the ids 7, 2, 2. -/
theorem generateOvt_fileID_zero_witness :
    ∃ bytes, generateOvt insertionStdSort (romInfoOf duplicateIdNodes) true true = .ok bytes ∧
      (∀ e ∈ readRecords (bytes.length / 32) bytes, e.fileID = 0) ∧
      (∀ i k : Nat, i < bytes.length / 32 → k < 4 → bytes.getD (32 * i + 24 + k) 0 = 0) :=
  ⟨writeEntries (insertionStdSort.sort
      [⟨7, 1, 1, 1, 1, 1, 0, 1, 0⟩, ⟨2, 2, 2, 2, 2, 2, 0, 2, 1⟩, ⟨2, 3, 3, 3, 3, 3, 0, 3, 0⟩]),
    by decide,
    generateOvt_fileID_zero insertionStdSort (romInfoOf duplicateIdNodes) true true _
      (by decide)⟩

/-! ## C15: size of the written table -/

/-- C15: for every container node on which `generateOvt` succeeds, the byte
length of the written table is exactly 32 times the number of children named
`RomOVT` (children of any other name add nothing), hence a multiple of 32,
and the file is the concatenation of the 32-byte images of its records, with
no length prefix and no padding. -/
theorem generateOvt_length (S : StdSort) (romInfoNode : XmlNode) (isArm9 opens : Bool)
    (bytes : List Byte) (hgen : generateOvt S romInfoNode isArm9 opens = .ok bytes) :
    bytes.length = sizeofOvtEntry * nodeCount (romInfoNode.child (ovtNodeName isArm9)) "RomOVT" ∧
    bytes.length % 32 = 0 ∧
    bytes = ((readRecords (bytes.length / 32) bytes).map OvtEntry.toBytes).flatten ∧
    ∀ e ∈ readRecords (bytes.length / 32) bytes, e.toBytes.length = 32 := by
  obtain ⟨es, hread, hb⟩ := generateOvt_ok_inv S romInfoNode isArm9 opens bytes hgen
  have hlen : bytes.length = 32 * nodeCount (romInfoNode.child (ovtNodeName isArm9)) "RomOVT" := by
    rw [hb, writeEntries_length, (S.perm es).length_eq, readEntries_length _ es hread]
    rfl
  refine ⟨hlen, by omega, ?_, fun e _ => toBytes_length e⟩
  rw [hb, readRecords_written _ (perm_WF S _ es hread)]
  rfl

/-- C15 at a container that holds two overlays among three other children:
the file has 64 bytes. -/
theorem generateOvt_length_witness :
    ∃ bytes, generateOvt insertionStdSort mixedDocument true true = .ok bytes ∧
      nodeCount (mixedDocument.child (ovtNodeName true)) "RomOVT" = 2 ∧
      bytes.length = sizeofOvtEntry * nodeCount (mixedDocument.child (ovtNodeName true)) "RomOVT" ∧
      bytes.length % 32 = 0 ∧
      bytes = ((readRecords (bytes.length / 32) bytes).map OvtEntry.toBytes).flatten ∧
      ∀ e ∈ readRecords (bytes.length / 32) bytes, e.toBytes.length = 32 :=
  ⟨writeEntries (insertionStdSort.sort [recordOf smallDescription, recordOf otherDescription]),
    by decide, by decide,
    generateOvt_length insertionStdSort mixedDocument true true _ (by decide)⟩

/-! ## C18: sorting keeps every record -/

/-- C18: for every container node on which `generateOvt` succeeds, the
written record array is a permutation of the records obtained by converting
each `RomOVT` child on its own, in document order: sorting neither drops nor
duplicates a record, also when several descriptions share an id. -/
theorem generateOvt_perm (S : StdSort) (romInfoNode : XmlNode) (isArm9 opens : Bool)
    (bytes : List Byte) (hgen : generateOvt S romInfoNode isArm9 opens = .ok bytes) :
    ∃ es, List.Forall₂ (fun node e => readEntry node = .ok e)
        ((ovtChildren romInfoNode isArm9).filter (XmlNode.isNamed "RomOVT")) es ∧
      (readRecords (bytes.length / 32) bytes).Perm es := by
  obtain ⟨es, hread, hb⟩ := generateOvt_ok_inv S romInfoNode isArm9 opens bytes hgen
  refine ⟨es, readEntries_forall₂ _ es hread, ?_⟩
  rw [hb, readRecords_written _ (perm_WF S _ es hread)]
  exact S.perm es

/-- C18 at the document with the ids 7, 2, 2. -/
theorem generateOvt_perm_witness :
    ∃ bytes es, generateOvt insertionStdSort (romInfoOf duplicateIdNodes) true true = .ok bytes ∧
      List.Forall₂ (fun node e => readEntry node = .ok e)
        ((ovtChildren (romInfoOf duplicateIdNodes) true).filter (XmlNode.isNamed "RomOVT")) es ∧
      (readRecords (bytes.length / 32) bytes).Perm es := by
  have hg : generateOvt insertionStdSort (romInfoOf duplicateIdNodes) true true =
      .ok (writeEntries (insertionStdSort.sort
        [⟨7, 1, 1, 1, 1, 1, 0, 1, 0⟩, ⟨2, 2, 2, 2, 2, 2, 0, 2, 1⟩,
          ⟨2, 3, 3, 3, 3, 3, 0, 3, 0⟩])) := by decide
  obtain ⟨es, h1, h2⟩ := generateOvt_perm insertionStdSort (romInfoOf duplicateIdNodes) true true
    _ hg
  exact ⟨_, es, hg, h1, h2⟩

/-! ## C16: size of the header file -/

theorem headerToBytes_length (h : NDSHeader) : h.toBytes.length = sizeofNDSHeader := by
  simp [NDSHeader.toBytes, u32Bytes, sizeofNDSHeader]

/-- C16, as stated, fails in its second half: a header file of 10 bytes
and one of 30 bytes are both read without complaint (the short one into a
record whose missing bytes are zero, the long one cut after 24 bytes), and
the reverse direction goes on to rewrite the document. -/
theorem C16_counterexample :
    shortHeaderFile.length = 10 ∧ longHeaderFile.length = 30 ∧ sizeofNDSHeader = 24 ∧
    loadHeader (some shortHeaderFile) = .ok ⟨67305985, 134678021, 2569, 0, 0, 0⟩ ∧
    loadHeader (some longHeaderFile) =
      .ok ⟨4294967295, 4294967295, 4294967295, 4294967295, 4294967295, 4294967295⟩ ∧
    (postBuild (romInfoOf []) (some shortHeaderFile) (some []) (some []) true true).toOption.isSome
      = true := by
  decide

/-- C16, amended: the header blob written by the forward direction always
has exactly the size of the header record; in the reverse direction a header
file of any byte length that can be opened is accepted without a size check
(at most the first `sizeof(NDSHeader)` bytes are read), and only a header
file that cannot be opened is fatal. -/
theorem header_fixed_size (romInfoNode : XmlNode) (opens : Bool) (blob headerFile : List Byte)
    (hw : writeHeader romInfoNode opens = .ok blob) :
    blob.length = sizeofNDSHeader ∧
    loadHeader (some headerFile) = .ok (NDSHeader.ofBytes (headerFile.take sizeofNDSHeader)) ∧
    loadHeader none = .error .returned_false := by
  refine ⟨?_, rfl, rfl⟩
  unfold writeHeader at hw
  cases hr : readHeader romInfoNode with
  | error f => simp [hr] at hw
  | ok h =>
    cases opens with
    | false => simp [hr] at hw
    | true =>
      simp only [hr, Bool.not_true, Bool.false_eq_true, if_false, Except.ok.injEq] at hw
      rw [← hw]
      exact headerToBytes_length h

/-- C16, amended, at `exampleDocument` and the 10-byte header file. -/
theorem header_fixed_size_witness :
    (exampleHeader.toBytes).length = sizeofNDSHeader ∧
    loadHeader (some shortHeaderFile) =
      .ok (NDSHeader.ofBytes (shortHeaderFile.take sizeofNDSHeader)) ∧
    loadHeader none = .error .returned_false :=
  header_fixed_size exampleDocument true exampleHeader.toBytes shortHeaderFile (by decide)

/-! ## C17: the exact domain of the round trip -/

theorem sortById_strict (ds : List OverlayDescription) (hid : (ds.map (fun d => d.id)).Nodup) :
    (sortById ds).Pairwise (fun a b => a.id < b.id) := by
  haveI : IsTotal OverlayDescription (fun a b => a.id ≤ b.id) :=
    ⟨fun a b => Nat.le_total a.id b.id⟩
  haveI : IsTrans OverlayDescription (fun a b => a.id ≤ b.id) :=
    ⟨fun _ _ _ hab hbc => Nat.le_trans hab hbc⟩
  have hp : (sortById ds).Perm ds := List.perm_insertionSort _ ds
  have hs : (sortById ds).Pairwise (fun a b => a.id ≤ b.id) := List.sorted_insertionSort _ ds
  have hn : ((sortById ds).map (fun d => d.id)).Nodup := (hp.map _).nodup_iff.mpr hid
  have hne : (sortById ds).Pairwise (fun a b => a.id ≠ b.id) := by
    unfold List.Nodup at hn
    rwa [List.pairwise_map] at hn
  exact List.Pairwise.imp₂ (fun a b h1 h2 => Nat.lt_of_le_of_ne h1 h2) hs hne

/-- C17: for every list of overlay descriptions with pairwise distinct ids in
which the id and the five fields `RamAddress`, `RamSize`, `BssSize`,
`SinitInit`, `SinitInitEnd` are the decimal numerals of values below `2 ^ 31`,
`Compressed` is the numeral of a value below `2 ^ 24` and `Flag` is a canonical
string, `restoreOvt` applied to the output of `generateOvt` yields exactly the
input descriptions reordered ascending by id, every attribute and child text
identical; and for any node the compressed size stored by `generateOvt` is
the parsed value modulo `2 ^ 24`. -/
theorem roundtrip_exact_domain (S : StdSort) (romInfoNode target : XmlNode) (isArm9 : Bool)
    (ds : List OverlayDescription)
    (hdoc : List.Forall₂ Describes (ovtChildren romInfoNode isArm9) ds)
    (hid : (ds.map (fun d => d.id)).Nodup)
    (hrange : ∀ d ∈ ds, d.InRange)
    (ht : (target.child (ovtNodeName isArm9)).isSome) :
    (∃ bytes r ds', generateOvt S romInfoNode isArm9 true = .ok bytes ∧
      restoreOvt target isArm9 (some bytes) true = .ok r ∧
      ds'.Perm ds ∧ ds'.Pairwise (fun a b => a.id < b.id) ∧
      List.Forall₂ Describes (ovtChildren r isArm9) ds' ∧
      ovtChildren r isArm9 = ds'.map (fun d => entryNodeOf (recordOf d))) ∧
    (∀ (node : XmlNode) (e : OvtEntry), readEntry node = .ok e →
      ∃ c : Int, stoi (node.child_value "Compressed") = .ok c ∧
        e.compressed = (c % 16777216).toNat) := by
  constructor
  · have hfit : ∀ d ∈ ds, d.id < 2147483648 ∧ d.FieldsFitInt := by
      intro d hd
      obtain ⟨h0, h1, h2, h3, h4, h5, h6⟩ := hrange d hd
      exact ⟨h0, h1, h2, h3, h4, h5, by omega⟩
    have hread := readEntries_describes _ ds hdoc hfit
    obtain ⟨hg, r, hr, hc⟩ := generate_then_restore S romInfoNode target isArm9 _ hread ht
    rw [sort_map_recordOf S ds hid, List.map_map] at hc
    refine ⟨_, r, sortById ds, hg, hr, List.perm_insertionSort _ ds, sortById_strict ds hid, ?_,
      hc⟩
    rw [hc]
    have hmem : ∀ d ∈ sortById ds, d.InRange := fun d hd =>
      hrange d ((List.perm_insertionSort _ ds).mem_iff.mp hd)
    generalize sortById ds = l at hmem
    induction l with
    | nil => exact List.Forall₂.nil
    | cons d l ih =>
      refine List.Forall₂.cons ?_ (ih (fun x hx => hmem x (List.mem_cons_of_mem d hx)))
      exact entryNodeOf_describes d (hmem d (List.mem_cons_self d l)).2.2.2.2.2.2
  · intro node e he
    obtain ⟨ra, rs, bs, si, se, c, h1, h2, h3, h4, h5, h6⟩ := readEntry_inv node e he
    rw [readEntry_ok node ra rs bs si se c h1 h2 h3 h4 h5 h6] at he
    refine ⟨c, h6, ?_⟩
    rw [← Except.ok.inj he]
    rfl

/-- C17 at a document that holds two overlays in descending order of id. -/
theorem roundtrip_exact_domain_witness :
    (∃ bytes r ds', generateOvt insertionStdSort (romInfoOf [smallNode, otherNode]) true true =
        .ok bytes ∧
      restoreOvt (romInfoOf []) true (some bytes) true = .ok r ∧
      ds'.Perm [smallDescription, otherDescription] ∧ ds'.Pairwise (fun a b => a.id < b.id) ∧
      List.Forall₂ Describes (ovtChildren r true) ds' ∧
      ovtChildren r true = ds'.map (fun d => entryNodeOf (recordOf d))) ∧
    (∀ (node : XmlNode) (e : OvtEntry), readEntry node = .ok e →
      ∃ c : Int, stoi (node.child_value "Compressed") = .ok c ∧
        e.compressed = (c % 16777216).toNat) :=
  roundtrip_exact_domain insertionStdSort (romInfoOf [smallNode, otherNode]) (romInfoOf []) true
    [smallDescription, otherDescription]
    (List.Forall₂.cons (by decide) (List.Forall₂.cons (by decide) List.Forall₂.nil))
    (by decide) (by decide) (by decide)

end Ncpgen
